import Mathlib

/-!
Verification of the core discrete-event queueing-network simulator (qnet).

This file gives a shallow embedding, in Lean 4, of the parts of the `qnet`
package that the specification claims talk about:

* `core_models.py`: the FIFO `Queue` backed by a Python `deque` with an
  optional `maxlen` (modelled by `QNet.PyQueue`);
* `service_node.py`: `Task`, `ChannelPool` (tasks in a min-heap keyed by
  `next_time`, channels split into free/occupied sets), and the
  `QueueingNode` state machine (`start_action`, `end_action`, `try_unblock`,
  `can_accept_item`, the blocking predicate, the always-on debug validator);
* `routing_node.py`: `PriorityGroupTransitionNode._get_next_node`;
* `item_generator.py`: `BaseFactoryNode.start_action`;
* `simulation_engine.py`: `Model.step` / `Model._goto` and
  `Model._unblock_safety_net`.

Modelling conventions:

* Python floats that hold simulation times are modelled by `Rat`; the
  special value `INF_TIME = float("inf")` is modelled by `none` in
  `Option Rat` (the code only ever compares such times and takes minima,
  which `eMin` / `eLe` reproduce).
* Python exceptions (`KeyError` on `set.pop` from an empty set,
  `IndexError` on popping an empty heap, `AssertionError` from the debug
  validator, dict `KeyError`) are modelled by `Option`-returning functions
  that yield `none` where the Python code would raise.
* Python `Task.__eq__` / `__hash__` compare only `next_time` (all other
  dataclass fields are `compare=False`), so `ChannelPool.task_to_channel`
  is modelled as an association list keyed by `next_time`, with dict
  assignment overwriting the entry for an existing key.
* The `QueueingNode` claims are settled over a closed two-node world
  `A → B` (`B` terminal), the minimal topology in which blocking,
  unblocking, delivery and the safety net are all exercised.  In this
  topology only `B.blocked_predecessors` can be nonempty (and can contain
  only `A`), which is recorded as the Boolean world field `predsB`;
  `A.blocked_predecessors` is structurally empty.
* `print` of the terminal-node warning in `try_unblock` is reified as the
  counter `World.warnings`.
-/

namespace QNet

/-- Mirror of `TIME_EPS = 1e-6` from `core_models.py`. -/
def TIME_EPS : Rat := 1 / 1000000

/-- Extended simulation time: `none` models `INF_TIME = float("inf")`. -/
abbrev ETime := Option Rat

/-- Minimum of two extended times, with `none` acting as `+inf`
(this is how Python `min` behaves on `float("inf")`). -/
def eMin : ETime → ETime → ETime
  | none, b => b
  | some a, none => some a
  | some a, some b => some (min a b)

/-- Comparison `a <= b` where `a` may be `+inf` (Python `inf <= b` is false
for finite `b`). -/
def eLe (a : ETime) (b : Rat) : Bool :=
  match a with
  | none => false
  | some q => decide (q ≤ b)

/-- Mirror of the event-eligibility test
`abs(self.current_time - nd.next_time) <= TIME_EPS` from `Model._goto`;
an infinite `next_time` is never within `TIME_EPS` of a finite time. -/
def withinEps (nt : ETime) (t : Rat) : Bool :=
  match nt with
  | none => false
  | some q => decide (|t - q| ≤ TIME_EPS)

/-- Mirror of `ActionType` from `core_models.py`. -/
inductive ActionType where
  | IN
  | OUT
deriving DecidableEq

/-- Mirror of `ActionRecord` from `core_models.py`; `ν` is the type used to
refer to the acting node. -/
structure ActionRecord (ν : Type) where
  node : ν
  action_type : ActionType
  time : Rat
deriving DecidableEq

/-- Mirror of `Item` from `core_models.py` (identified by `id`). -/
structure Item (ν : Type) where
  id : Nat
  created_time : Rat
  current_time : Rat
  processed : Bool
  history : List (ActionRecord ν)
deriving DecidableEq

/-- Mirror of `Queue` from `core_models.py`: a FIFO queue backed by a Python
`deque(maxlen=maxlen)`. -/
structure PyQueue (α : Type) where
  maxlen : Option Nat
  data : List α
deriving DecidableEq

namespace PyQueue

/-- Mirror of `BoundedCollection.is_full`: bounded and at capacity. -/
def isFull (q : PyQueue α) : Bool :=
  match q.maxlen with
  | some n => decide (q.data.length = n)
  | none => false

/-- Mirror of `BoundedCollection.is_empty`. -/
def isEmpty (q : PyQueue α) : Bool :=
  q.data.isEmpty

/-- Mirror of `Queue.push`: `self.queue.append(item); return None`.
A CPython `deque` with a `maxlen` appends and then discards elements from
the opposite (left) end until the length is back within `maxlen`; with
`maxlen = 0` the appended element itself is discarded. -/
def push (q : PyQueue α) (x : α) : PyQueue α × Option α :=
  let d := q.data ++ [x]
  let d2 := match q.maxlen with
    | none => d
    | some n => if n < d.length then d.drop (d.length - n) else d
  (⟨q.maxlen, d2⟩, none)

/-- Mirror of `Queue.pop` (`popleft`); `none` models the `IndexError` on an
empty deque. -/
def popFront (q : PyQueue α) : Option (α × PyQueue α) :=
  match q.data with
  | [] => none
  | x :: xs => some (x, ⟨q.maxlen, xs⟩)

end PyQueue

/-- Mirror of `Task` from `service_node.py`.  The dataclass has
`order=True` with `item`, `id` and `blocked_start_time` marked
`compare=False`, so ordering, equality and hashing all use `next_time`
only; the global `id` counter is used nowhere in the modelled logic and is
omitted. -/
structure Task (ν : Type) where
  item : Item ν
  next_time : Rat
  blocked_start_time : Option Rat := none
deriving DecidableEq

/-- Pop the task with minimal `next_time` from a heap modelled as a list
(`heapq.heappop`; ties go to the earliest listed task).  Yields `none` on
an empty heap (Python `IndexError`). -/
def popMinTask : List (Task ν) → Option (Task ν × List (Task ν))
  | [] => none
  | t :: rest =>
    match popMinTask rest with
    | none => some (t, [])
    | some (m, rest2) =>
      if t.next_time ≤ m.next_time then some (t, rest) else some (m, t :: rest2)

/-- Mirror of `MinHeap.push` as used for `ChannelPool.tasks` (with
`maxlen = max_channels`): a push into a full heap does
`heapq.heapreplace` (pop the minimum, then insert), which raises on an
empty heap (modelled by `none`); the evicted value is discarded by
`ChannelPool.add_task`. -/
def heapPush (maxlen : Option Nat) (l : List (Task ν)) (t : Task ν) :
    Option (List (Task ν)) :=
  let full := match maxlen with
    | some n => decide (l.length = n)
    | none => false
  if full then
    match popMinTask l with
    | none => none
    | some (_, rest) => some (rest ++ [t])
  else some (l ++ [t])

/-- Earliest finishing time among active tasks
(`ChannelPool.next_finish_time`); `none` models `INF_TIME` on an empty
heap. -/
def nextFinishTime (l : List (Task ν)) : ETime :=
  l.foldr (fun t a => eMin (some t.next_time) a) none

/-- Dict assignment `m[k] = v` on an association list keyed by `Rat`
(the `next_time`-based equality of `Task`): any existing entry for the key
is overwritten. -/
def assocInsert (m : List (Rat × Nat)) (k : Rat) (v : Nat) : List (Rat × Nat) :=
  (k, v) :: m.filter (fun e => !(decide (e.1 = k)))

/-- Dict `m.pop(k)` on an association list: the stored value together with
the list without that key, or `none` (Python `KeyError`) if absent. -/
def assocPop (m : List (Rat × Nat)) (k : Rat) : Option (Nat × List (Rat × Nat)) :=
  match m.find? (fun e => decide (e.1 = k)) with
  | some e => some (e.2, m.filter (fun x => !(decide (x.1 = k))))
  | none => none

/-- Mirror of `ChannelPool` from `service_node.py`.  Channels are
identified by their integer ids (each `Channel` object is created exactly
once per id during a pool's lifetime). -/
structure ChannelPool (ν : Type) where
  max_channels : Option Nat
  tasks : List (Task ν)
  task_to_channel : List (Rat × Nat)
  current_id : Nat
  free_channels : List Nat
  occupied_channels : List Nat

namespace ChannelPool

/-- Mirror of `ChannelPool.__init__`: one free channel with id 0 is
allocated immediately, regardless of `max_channels`. -/
def init (ν : Type) (m : Option Nat) : ChannelPool ν :=
  ⟨m, [], [], 0, [0], []⟩

/-- Mirror of `ChannelPool._occupy_channel`: pop a free channel
(`set.pop`, modelled as the head of the list; `none` models the
`KeyError` on an empty set), lazily allocate the next channel id when the
free set would become empty and capacity remains, and move the popped
channel to the occupied set. -/
def occupyChannel (p : ChannelPool ν) : Option (Nat × ChannelPool ν) :=
  match p.free_channels with
  | [] => none
  | ch :: rest =>
    let canGrow := match p.max_channels with
      | none => true
      | some m => decide (p.current_id + 1 < m)
    if rest.isEmpty && canGrow then
      some (ch, ⟨p.max_channels, p.tasks, p.task_to_channel, p.current_id + 1,
                 [p.current_id + 1], ch :: p.occupied_channels⟩)
    else
      some (ch, ⟨p.max_channels, p.tasks, p.task_to_channel, p.current_id,
                 rest, ch :: p.occupied_channels⟩)

/-- Mirror of `ChannelPool.add_task`: occupy one channel, push the task
onto the heap, and record the task-to-channel association (dict assignment
keyed by the task's `next_time`). -/
def addTask (p : ChannelPool ν) (t : Task ν) : Option (ChannelPool ν) :=
  match p.occupyChannel with
  | none => none
  | some (ch, p1) =>
    match heapPush p1.max_channels p1.tasks t with
    | none => none
    | some tasks2 =>
      some ⟨p1.max_channels, tasks2, assocInsert p1.task_to_channel t.next_time ch,
            p1.current_id, p1.free_channels, p1.occupied_channels⟩

/-- Mirror of `ChannelPool.pop_finished_task`: pop the earliest-finishing
task from the heap, look up and delete its channel in `task_to_channel`
(dict `pop`), and move that channel from occupied back to free
(`set.remove` raises, hence `none`, if the channel is not occupied). -/
def popFinishedTask (p : ChannelPool ν) : Option (Task ν × ChannelPool ν) :=
  match popMinTask p.tasks with
  | none => none
  | some (t, rest) =>
    match assocPop p.task_to_channel t.next_time with
    | none => none
    | some (ch, m2) =>
      if ch ∈ p.occupied_channels then
        some (t, ⟨p.max_channels, rest, m2, p.current_id,
                  ch :: p.free_channels, p.occupied_channels.erase ch⟩)
      else none

/-- States of a `ChannelPool` reachable from construction by successful
`add_task` / `pop_finished_task` calls (a failing call raises in Python
and aborts the sequence). -/
inductive Reachable (ν : Type) (m : Option Nat) : ChannelPool ν → Prop where
  | init : Reachable ν m (ChannelPool.init ν m)
  | add {p p' : ChannelPool ν} {t : Task ν} :
      Reachable ν m p → p.addTask t = some p' → Reachable ν m p'
  | pop {p p' : ChannelPool ν} {t : Task ν} :
      Reachable ν m p → p.popFinishedTask = some (t, p') → Reachable ν m p'

end ChannelPool

/-- Destination node as seen by `PriorityGroupTransitionNode._get_next_node`:
the only query the router makes is `can_accept_item()`; `id` identifies the
node object. -/
structure PDest where
  id : Nat
  canAccept : Bool
deriving DecidableEq

/-- Model of `random.choice(l)` given an oracle index `k` supplied by the
random number generator: element `k % len(l)`, or `none` (Python
`IndexError`) on an empty list. -/
def randChoice (l : List PDest) (k : Nat) : Option PDest :=
  l.get? (k % l.length)

/-- Key-ascending insertion sort of the priority groups, modelling
`sorted(self.priority_groups.keys())` followed by indexing the dict
(dict keys are distinct, so sorting the pairs is equivalent). -/
def sortGroups (groups : List (Nat × List PDest)) : List (Nat × List PDest) :=
  groups.insertionSort (fun a b => a.1 ≤ b.1)

/-- First group, in the given (sorted) order, whose accepting subset
`[node for node in nodes_in_group if node.can_accept_item()]` is nonempty;
returns that accepting subset.  This is the search loop of
`_get_next_node`. -/
def firstAvailable : List (Nat × List PDest) → Option (List PDest)
  | [] => none
  | g :: rest =>
    let avail := g.2.filter (fun d => d.canAccept)
    if avail.isEmpty then firstAvailable rest else some avail

/-- Mirror of `PriorityGroupTransitionNode._get_next_node`; `k` is the
oracle index consumed by `random.choice`. -/
def getNextNode (groups : List (Nat × List PDest)) (k : Nat) : Option PDest :=
  if groups.isEmpty then none
  else
    let sorted := sortGroups groups
    match firstAvailable sorted with
    | some avail => randChoice avail k
    | none =>
      match sorted with
      | [] => none
      | g :: _ => randChoice g.2 k

/-- Metrics of a factory node (`NodeMetrics` from `simulation_node.py`;
`BaseFactoryNode` adds nothing that `start_action` touches). -/
structure FactoryMetrics where
  passed_time : Rat := 0
  num_in : Nat := 0
  num_out : Nat := 0
  start_action_time : Rat := -1
  end_action_time : Rat := -1
deriving DecidableEq

/-- State of a `BaseFactoryNode` relevant to `start_action`; the held item
and the id counter are untouched by it and omitted. -/
structure FactoryNode where
  metrics : FactoryMetrics
  current_time : Rat
  next_time : ETime
deriving DecidableEq

/-- Mirror of `BaseFactoryNode.start_action`: it first runs
`Node.start_action` (the `_item_in_hook` increments `num_in`,
`start_action_time` is set, an IN record is appended to the item's
history) and only then raises `RuntimeError`.  The mutations survive the
exception because the Python objects are updated in place; the raised
error is reified as the third component. -/
def factoryStartAction (nd : FactoryNode) (item : Item Unit) :
    FactoryNode × Item Unit × Option String :=
  let m1 : FactoryMetrics := { nd.metrics with num_in := nd.metrics.num_in + 1 }
  let m2 : FactoryMetrics := { m1 with start_action_time := nd.current_time }
  let item1 : Item Unit :=
    { item with history := item.history ++ [⟨(), ActionType.IN, nd.current_time⟩] }
  (⟨m2, nd.current_time, nd.next_time⟩, item1,
   some "start_action() must not be called on a factory node!")

/-- Mirror of `NodeState` from `simulation_node.py`. -/
inductive NodeState where
  | IDLE
  | BUSY
  | BLOCKED
deriving DecidableEq

/-- Names of the two nodes of the closed world `A → B`. -/
inductive NodeTag where
  | nodeA
  | nodeB
deriving DecidableEq

/-- Observables available to a custom blocking predicate `B(S, t)`
(the library helpers close over `node.current_time`,
`next_node.can_accept_item()`, `next_node.queuelen` and
`next_node.metrics.mean_channels_load`). -/
structure BPInput where
  selfCurrentTime : Rat
  nextCanAccept : Bool
  nextQueuelen : Nat
  nextMeanLoad : Rat

/-- Mirror of `QueueingMetrics` (including the inherited `NodeMetrics`
fields) from `service_node.py` / `simulation_node.py`. -/
structure QMetrics where
  passed_time : Rat := 0
  num_in : Nat := 0
  num_out : Nat := 0
  start_action_time : Rat := -1
  end_action_time : Rat := -1
  total_wait_time : Rat := 0
  load_time_per_channel : List (Nat × Rat) := []
  in_time : Rat := 0
  out_time : Rat := 0
  in_intervals_sum : Rat := 0
  out_intervals_sum : Rat := 0
  num_failures : Nat := 0
  blocked_time : Rat := 0
  num_blocks : Nat := 0
  max_blocked_tasks : Nat := 0
deriving DecidableEq

/-- Mirror of the mutable state of a `QueueingNode`
(`service_node.py`).  `delay_fn` is the opaque delay function
(`_predict_item_time` adds its sample to `current_time`);
`blocking_predicate` is the optional custom predicate `B(S, t)`. -/
structure QNode where
  metrics : QMetrics
  current_time : Rat
  next_time : ETime
  state : NodeState
  queue : PyQueue (Item NodeTag)
  channel_pool : ChannelPool NodeTag
  blocked_tasks : List (Task NodeTag)
  delay_fn : Item NodeTag → Rat
  blocking_predicate : Option (BPInput → Bool)

namespace QNode

/-- Mirror of `QueueingMetrics.mean_channels_load` (the sum over channels
of `load / max(passed_time, TIME_EPS)`). -/
def meanChannelsLoad (nd : QNode) : Rat :=
  (nd.metrics.load_time_per_channel.map (fun e => e.2)).sum /
    max nd.metrics.passed_time TIME_EPS

/-- Mirror of `QueueingNode.can_accept_item`: channels (counting blocked
tasks as occupancy) full means fall back to queue room, else accept. -/
def canAcceptItem (nd : QNode) : Bool :=
  let e := nd.channel_pool.occupied_channels.length + nd.blocked_tasks.length
  let channelsFull := match nd.channel_pool.max_channels with
    | some m => decide (m ≤ e)
    | none => false
  if channelsFull then !nd.queue.isFull else true

/-- Mirror of `QueueingNode._item_in_hook` (including the inherited
`num_in` increment). -/
def itemInHook (nd : QNode) : QNode :=
  let m1 : QMetrics := { nd.metrics with num_in := nd.metrics.num_in + 1 }
  let m2 : QMetrics :=
    if 1 < m1.num_in then
      { m1 with in_intervals_sum := m1.in_intervals_sum + (nd.current_time - m1.in_time) }
    else m1
  { nd with metrics := { m2 with in_time := nd.current_time } }

/-- Mirror of `QueueingNode._item_out_hook` (including the inherited
`num_out` increment). -/
def itemOutHook (nd : QNode) : QNode :=
  let m1 : QMetrics := { nd.metrics with num_out := nd.metrics.num_out + 1 }
  let m2 : QMetrics :=
    if 1 < m1.num_out then
      { m1 with out_intervals_sum := m1.out_intervals_sum + (nd.current_time - m1.out_time) }
    else m1
  { nd with metrics := { m2 with out_time := nd.current_time } }

/-- Mirror of `QueueingNode.add_task`: push into the channel pool,
recompute `next_time`, and set the state to BUSY unless it is BLOCKED. -/
def addTask (nd : QNode) (t : Task NodeTag) : Option QNode :=
  match nd.channel_pool.addTask t with
  | none => none
  | some pool2 =>
    let nd1 := { nd with channel_pool := pool2, next_time := nextFinishTime pool2.tasks }
    some (if nd1.state = NodeState.BLOCKED then nd1 else { nd1 with state := NodeState.BUSY })

/-- Mirror of `QueueingNode.start_action` (together with the inherited
`Node.start_action` prologue: IN hook, `start_action_time`, IN history
record).  `tag` is the identity of this node in the history record. -/
def startAction (tag : NodeTag) (nd : QNode) (item : Item NodeTag) : Option QNode :=
  let nd1 := nd.itemInHook
  let nd2 : QNode :=
    { nd1 with metrics := { nd1.metrics with start_action_time := nd1.current_time } }
  let item1 : Item NodeTag :=
    { item with history := item.history ++ [⟨tag, ActionType.IN, nd.current_time⟩] }
  let e := nd2.channel_pool.occupied_channels.length + nd2.blocked_tasks.length
  let channelsFull := match nd2.channel_pool.max_channels with
    | some m => decide (m ≤ e)
    | none => false
  if channelsFull then
    if nd2.queue.isFull then
      some { nd2 with metrics := { nd2.metrics with num_failures := nd2.metrics.num_failures + 1 } }
    else
      some { nd2 with queue := (nd2.queue.push item1).1 }
  else
    nd2.addTask ⟨item1, nd2.current_time + nd2.delay_fn item1, none⟩

/-- Mirror of step 4 of `QueueingNode.end_action` (refill from the queue
when effective occupancy leaves room). -/
def refill (nd : QNode) : Option QNode :=
  let e := nd.channel_pool.occupied_channels.length + nd.blocked_tasks.length
  let canRefill := match nd.channel_pool.max_channels with
    | some m => decide (e < m)
    | none => true
  if canRefill && !nd.queue.isEmpty then
    match nd.queue.data with
    | [] => some nd
    | x :: xs =>
      QNode.addTask { nd with queue := ⟨nd.queue.maxlen, xs⟩ }
        ⟨x, nd.current_time + nd.delay_fn x, none⟩
  else some nd

/-- Dict update `load[ch] = load.get(ch, 0) + dtime` from
`_before_time_update_hook`. -/
def bumpLoad (l : List (Nat × Rat)) (ch : Nat) (dt : Rat) : List (Nat × Rat) :=
  match l.find? (fun e => decide (e.1 = ch)) with
  | some e => (ch, e.2 + dt) :: l.filter (fun x => !(decide (x.1 = ch)))
  | none => (ch, dt) :: l

/-- Mirror of `QueueingNode.update_time`: the `_before_time_update_hook`
metric integration (`bumpLoad` is the dict update
`load[ch] = load.get(ch, 0) + dtime`), then advancing the node clock and
the clocks of the currently held items (queue contents plus channel-pool
task items; blocked-task items are not in `current_items`). -/
def updateTime (nd : QNode) (t : Rat) : QNode :=
  let dt := t - nd.current_time
  let m1 : QMetrics := { nd.metrics with passed_time := nd.metrics.passed_time + dt }
  let newLoad := nd.channel_pool.occupied_channels.foldl (fun acc ch => bumpLoad acc ch dt) m1.load_time_per_channel
  let m2 : QMetrics := { m1 with load_time_per_channel := newLoad }
  let m3 : QMetrics :=
    { m2 with total_wait_time := m2.total_wait_time + (nd.queue.data.length : Rat) * dt }
  { nd with
    metrics := m3
    current_time := t
    queue := ⟨nd.queue.maxlen, nd.queue.data.map (fun it => { it with current_time := t })⟩
    channel_pool := { nd.channel_pool with
      tasks := nd.channel_pool.tasks.map (fun tk => { tk with item := { tk.item with current_time := t } }) } }

/-- The node-local assertions of `_validate_blocking_invariants`
(invariants 1 and 3; `from logging import DEBUG` makes `DEBUG` the truthy
constant 10, so the validator runs on every `end_action`). -/
def validateCore (nd : QNode) : Bool :=
  (!(decide (nd.state = NodeState.BLOCKED)) || !nd.blocked_tasks.isEmpty) &&
  (nd.blocked_tasks.isEmpty || decide (nd.state = NodeState.BLOCKED)) &&
  (!(decide (nd.state = NodeState.IDLE)) ||
    (nd.channel_pool.tasks.isEmpty && nd.blocked_tasks.isEmpty))

end QNode

/-- The closed two-node world: a `QueueingNode` `A` whose `next_node` is
the terminal `QueueingNode` `B` (`B.next_node = None`).  `predsB` states
whether `A ∈ B.blocked_predecessors`; `A.blocked_predecessors` is
structurally empty because no node feeds into `A`.  `warnings` counts the
`print` calls of the terminal-node branch of `try_unblock`. -/
structure World where
  A : QNode
  B : QNode
  predsB : Bool
  warnings : Nat

/-- Observables handed to `A`'s blocking predicate. -/
def mkBPInput (w : World) : BPInput :=
  ⟨w.A.current_time, w.B.canAcceptItem, w.B.queue.data.length, w.B.meanChannelsLoad⟩

/-- Mirror of `QueueingNode._should_block` for `A` (whose `next_node` is
`B`, so the `next_node is None` early return never fires): the custom
predicate if set, else `not next_node.can_accept_item()`. -/
def shouldBlockA (w : World) : Bool :=
  match w.A.blocking_predicate with
  | some f => f (mkBPInput w)
  | none => !w.B.canAcceptItem

/-- Mirror of `Node._end_action` on `A`: OUT hook, `end_action_time`, OUT
history record, then `next_node.start_action(item)` on `B`. -/
def deliverFromA (w : World) (item : Item NodeTag) : Option World :=
  let A1 := w.A.itemOutHook
  let A2 : QNode := { A1 with metrics := { A1.metrics with end_action_time := A1.current_time } }
  let item1 : Item NodeTag :=
    { item with history := item.history ++ [⟨NodeTag.nodeA, ActionType.OUT, w.A.current_time⟩] }
  match QNode.startAction NodeTag.nodeB w.B item1 with
  | none => none
  | some B1 => some { w with A := A2, B := B1 }

/-- Mirror of `Node._end_action` on the terminal `B`: OUT hook,
`end_action_time`, OUT history record and `processed = True` on the item,
which then leaves the system. -/
def finishAtB (w : World) (_item : Item NodeTag) : World :=
  let B1 := w.B.itemOutHook
  let B2 : QNode := { B1 with metrics := { B1.metrics with end_action_time := B1.current_time } }
  { w with B := B2 }

/-- The per-task blocking-duration metric update of `try_unblock`
(`if task.blocked_start_time is not None: blocked_time += current_time -
task.blocked_start_time`). -/
def chargeBlockedTime (A1 : QNode) (t : Task NodeTag) : QNode :=
  match t.blocked_start_time with
  | some bst =>
    { A1 with metrics := { A1.metrics with
        blocked_time := A1.metrics.blocked_time + (A1.current_time - bst) } }
  | none => A1

/-- The freed-slot refill inside the `try_unblock` loop: if `A`'s own
queue is nonempty, pop its head and schedule it as a new task (note: this
inner refill has no effective-occupancy guard in the source). -/
def unblockRefill (w1 : World) : Option World :=
  match w1.A.queue.data with
  | [] => some w1
  | x :: xs =>
    match QNode.addTask { w1.A with queue := ⟨w1.A.queue.maxlen, xs⟩ }
        ⟨x, w1.A.current_time + w1.A.delay_fn x, none⟩ with
    | none => none
    | some A3 => some { w1 with A := A3 }

/-- The state/`blocked_predecessors` bookkeeping after each delivery in
the `try_unblock` loop (`did_unblock` is always true there). -/
def unblockStateUpdate (w2 : World) : World :=
  if w2.A.blocked_tasks.isEmpty then
    let w3 : World := { w2 with predsB := false }
    if !w3.A.channel_pool.tasks.isEmpty then
      { w3 with A := { w3.A with state := NodeState.BUSY } }
    else if w3.A.queue.isEmpty then
      { w3 with A := { w3.A with state := NodeState.IDLE } }
    else w3
  else { w2 with A := { w2.A with state := NodeState.BLOCKED } }

/-- One iteration of the `try_unblock` while loop of `A`: pop the head
blocked task (`blocked_tasks.pop(0)`), account `blocked_time`, deliver the
item to `B`, refill a freed slot from `A`'s own queue, and update the
state/`blocked_predecessors` bookkeeping. -/
def unblockStepA (w : World) (t : Task NodeTag) (rest : List (Task NodeTag)) :
    Option World :=
  match deliverFromA
      { w with A := chargeBlockedTime { w.A with blocked_tasks := rest } t } t.item with
  | none => none
  | some w1 =>
    match unblockRefill w1 with
    | none => none
    | some w2 => some (unblockStateUpdate w2)

/-- The `try_unblock` while loop of `A`, driven by fuel; the loop pops one
blocked task per iteration, so `A.blocked_tasks.length` fuel is exactly
enough to reach the loop condition becoming false. -/
def tryUnblockGoA : Nat → World → Option World
  | 0, w => some w
  | Nat.succ fuel, w =>
    match w.A.blocked_tasks, w.B.canAcceptItem with
    | t :: rest, true =>
      match unblockStepA w t rest with
      | none => none
      | some w1 => tryUnblockGoA fuel w1
    | _, _ => some w

/-- Mirror of `_notify_blocked_predecessors` on `A`: after the
`can_accept_item` guard it loops over `A.blocked_predecessors`, which is
structurally empty in the `A → B` topology (no node feeds into `A`), so
the call is the identity. -/
def notifyPredecessorsA (w : World) : World := w

/-- Mirror of `QueueingNode.try_unblock` on `A` (whose `next_node` is
`B`, so the terminal-node warning branch never fires). -/
def tryUnblockA (w : World) : Option World :=
  if w.A.blocked_tasks.isEmpty then some (notifyPredecessorsA w)
  else
    match tryUnblockGoA w.A.blocked_tasks.length w with
    | none => none
    | some w1 => some (notifyPredecessorsA w1)

/-- Mirror of `_notify_blocked_predecessors` on `B`: if `B` can accept,
call `try_unblock` on each blocked predecessor — here at most `A`
(the `break` after refilling is moot with a single predecessor). -/
def notifyPredecessorsB (w : World) : Option World :=
  if !w.B.canAcceptItem then some w
  else if w.predsB then tryUnblockA w
  else some w

/-- Mirror of `QueueingNode.try_unblock` on the terminal `B`
(`next_node is None`): with blocked tasks present it prints a warning
(counted in `warnings`), clears `blocked_tasks`, notifies blocked
predecessors and returns — it does not raise. -/
def tryUnblockB (w : World) : Option World :=
  if w.B.blocked_tasks.isEmpty then notifyPredecessorsB w
  else
    notifyPredecessorsB
      { w with B := { w.B with blocked_tasks := [] }, warnings := w.warnings + 1 }

/-- The debug validator run at the top of `A.end_action`
(`A.blocked_predecessors` is empty, and `A` has a `next_node`, so only the
node-local invariants apply). -/
def validateA (w : World) : Bool :=
  w.A.validateCore

/-- The debug validator run at the top of `B.end_action`: besides the
node-local invariants, invariant 2 (`blocked_tasks → next_node`) forces
`B.blocked_tasks = []` since `B.next_node is None`, and invariant 4 checks
that a registered blocked predecessor (`A`, when `predsB`) has blocked
tasks. -/
def validateB (w : World) : Bool :=
  w.B.validateCore && w.B.blocked_tasks.isEmpty &&
  (!w.predsB || !w.A.blocked_tasks.isEmpty)

/-- The blocking branch of `QueueingNode.end_action` on `A`: hold the
finished item as a blocked task stamped with the current time, count the
block, track the peak blocked-queue length, enter BLOCKED, and register
`A` in `B.blocked_predecessors`.  The item is not delivered: it is carried
verbatim into `blocked_tasks` and `B` is untouched. -/
def blockFinishedA (w1 : World) (finished : Item NodeTag) : World :=
  let holder : Task NodeTag := ⟨finished, w1.A.current_time, some w1.A.current_time⟩
  let bl := w1.A.blocked_tasks ++ [holder]
  let m1 : QMetrics := { w1.A.metrics with num_blocks := w1.A.metrics.num_blocks + 1 }
  let m2 : QMetrics :=
    if m1.max_blocked_tasks < bl.length then { m1 with max_blocked_tasks := bl.length }
    else m1
  { w1 with
    A := { w1.A with blocked_tasks := bl, metrics := m2, state := NodeState.BLOCKED }
    predsB := true }

/-- The normal (non-blocking) branch of `end_action` on `A`: possibly go
IDLE, deliver the finished item to `B`, then `try_unblock`. -/
def endActionNormalA (w1 : World) (finished : Item NodeTag) : Option World :=
  let A2 : QNode :=
    if w1.A.channel_pool.tasks.isEmpty && w1.A.blocked_tasks.isEmpty then
      { w1.A with state := NodeState.IDLE }
    else w1.A
  match deliverFromA { w1 with A := A2 } finished with
  | none => none
  | some w1b => tryUnblockA w1b

/-- Steps 4–5 of `end_action` on `A`: refill from the queue and recompute
`next_time` from the channel pool. -/
def finishEndActionA (w2 : World) : Option World :=
  match w2.A.refill with
  | none => none
  | some A3 =>
    some { w2 with A := { A3 with next_time := nextFinishTime A3.channel_pool.tasks } }

/-- Mirror of `QueueingNode.end_action` on `A`: validator, pop the
earliest finished task, decide blocking (before state changes), either
hold the item as a blocked task (registering `A` in
`B.blocked_predecessors`) or deliver it to `B` and `try_unblock`, then
refill from the queue and recompute `next_time`. -/
def endActionA (w : World) : Option World :=
  if validateA w then
    match w.A.channel_pool.popFinishedTask with
    | none => none
    | some (tsk, pool1) =>
      match (if shouldBlockA { w with A := { w.A with channel_pool := pool1 } } then
          some (blockFinishedA { w with A := { w.A with channel_pool := pool1 } } tsk.item)
        else
          endActionNormalA { w with A := { w.A with channel_pool := pool1 } } tsk.item) with
      | none => none
      | some w2 => finishEndActionA w2
  else none

/-- Mirror of `QueueingNode.end_action` on the terminal `B`
(`_should_block` returns false since `next_node is None`; the normal path
always runs). -/
def endActionB (w : World) : Option World :=
  if validateB w then
    match w.B.channel_pool.popFinishedTask with
    | none => none
    | some (tsk, pool1) =>
      let w1 : World := { w with B := { w.B with channel_pool := pool1 } }
      let B2 : QNode :=
        if w1.B.channel_pool.tasks.isEmpty && w1.B.blocked_tasks.isEmpty then
          { w1.B with state := NodeState.IDLE }
        else w1.B
      let w2 := finishAtB { w1 with B := B2 } tsk.item
      match tryUnblockB w2 with
      | none => none
      | some w3 =>
        match w3.B.refill with
        | none => none
        | some B4 =>
          some { w3 with B := { B4 with next_time := nextFinishTime B4.channel_pool.tasks } }
  else none

/-- Number of nodes of the modelled world (`len(self.nodes)` for the
`A → B` model). -/
def numNodes : Nat := 2

/-- Mirror of the `Model` state from `simulation_engine.py` over the
two-node world: the model clock, the `ModelMetrics` fields the engine
mutates (`passed_time`, `num_events`, `num_unblock_cycles`, and the item
inventory `items`, collected by id), and the
`enable_unblock_safety_net` switch. -/
structure MState where
  w : World
  current_time : Rat
  passed_time : Rat
  num_events : Nat
  num_unblock_cycles : Nat
  items : List Nat
  enable_unblock_safety_net : Bool

/-- Mirror of `Model.next_time`:
`min(INF_TIME, *(nd.next_time for nd in nodes))`. -/
def modelNextTime (w : World) : ETime :=
  eMin (eMin none w.A.next_time) w.B.next_time

/-- One pass of `_unblock_safety_net`: `try_unblock` every node that has
the `try_unblock`/`blocked_tasks` attributes (both queueing nodes do),
recording whether any node's blocked-task count decreased, then run the
notify loop over every node that `can_accept_item()`. -/
def safetyPass (w : World) : Option (World × Bool) :=
  let lA := w.A.blocked_tasks.length
  match tryUnblockA w with
  | none => none
  | some w1 =>
    let progressA := decide (w1.A.blocked_tasks.length < lA)
    let lB := w1.B.blocked_tasks.length
    match tryUnblockB w1 with
    | none => none
    | some w2 =>
      let progressB := decide (w2.B.blocked_tasks.length < lB)
      let w3 := if w2.A.canAcceptItem then notifyPredecessorsA w2 else w2
      match (if w3.B.canAcceptItem then notifyPredecessorsB w3 else some w3) with
      | none => none
      | some w4 => some (w4, progressA || progressB)

/-- The `while iteration < max_iterations` loop of `_unblock_safety_net`,
with the remaining iteration budget as fuel; returns the final world and
the value of `iteration` at exit. -/
def safetyNetGo : Nat → Nat → World → Option (World × Nat)
  | 0, iteration, w => some (w, iteration)
  | Nat.succ fuel, iteration, w =>
    match safetyPass w with
    | none => none
    | some (w1, progress) =>
      if progress then safetyNetGo fuel (iteration + 1) w1
      else some (w1, iteration + 1)

/-- The loop of `_unblock_safety_net` run with its iteration bound
`max_iterations = len(self.nodes) * 2`. -/
def unblockSafetyNetCore (w : World) : Option (World × Nat) :=
  safetyNetGo (2 * numNodes) 0 w

/-- Mirror of `Model._unblock_safety_net`: run the bounded loop, then
`if iteration > 1: self.metrics.num_unblock_cycles += 1`. -/
def unblockSafetyNet (ms : MState) : Option MState :=
  match unblockSafetyNetCore ms.w with
  | none => none
  | some (w1, iters) =>
    some { ms with
           w := w1
           num_unblock_cycles :=
             if 1 < iters then ms.num_unblock_cycles + 1 else ms.num_unblock_cycles }

/-- Set insertion for the model's item inventory (`metrics.items.add`),
by item id. -/
def insertId (l : List Nat) (i : Nat) : List Nat :=
  if i ∈ l then l else l ++ [i]

/-- Mirror of `QueueingNode.current_items`: queue contents followed by the
channel-pool task items. -/
def currentItemIds (nd : QNode) : List Nat :=
  nd.queue.data.map (fun it => it.id) ++ nd.channel_pool.tasks.map (fun tk => tk.item.id)

/-- Mirror of `Model._collect_items`. -/
def collectItems (ms : MState) : MState :=
  { ms with items := (currentItemIds ms.w.A ++ currentItemIds ms.w.B).foldl insertId ms.items }

/-- The clock-advance phase of `Model._goto`: accumulate model
`passed_time`, set the model clock, and `update_time` every node. -/
def advancePhase (ms : MState) (new_time : Rat) : MState :=
  { ms with
    passed_time := ms.passed_time + (new_time - ms.current_time)
    current_time := new_time
    w := { ms.w with A := ms.w.A.updateTime new_time, B := ms.w.B.updateTime new_time } }

/-- Firing `A.end_action` from the dispatcher, with the
`_after_node_end_action_hook` event count (`A` is a queueing node). -/
def fireA (ms1 : MState) : Option MState :=
  match endActionA ms1.w with
  | none => none
  | some w2 => some { ms1 with w := w2, num_events := ms1.num_events + 1 }

/-- Firing `B.end_action` from the dispatcher, with the
`_after_node_end_action_hook` event count (`B` is a queueing node). -/
def fireB (ms2 : MState) : Option MState :=
  match endActionB ms2.w with
  | none => none
  | some w3 => some { ms2 with w := w3, num_events := ms2.num_events + 1 }

/-- The body of `Model.step` / `Model._goto` once the new clock value is
known: advance the model clock (accumulating `passed_time`), `update_time`
every node, fire `end_action` on every node whose `next_time` is within
`TIME_EPS` of the new clock (the eligible set is computed before any node
fires), run the unblock safety net if enabled, collect items, and report
whether the next event (`tstar`) was within `end_time`. -/
def stepCore (ms : MState) (tstar : ETime) (new_time : Rat) (end_time : Rat) :
    Option (MState × Bool) :=
  let ms1 := advancePhase ms new_time
  let eligA := withinEps ms1.w.A.next_time new_time
  let eligB := withinEps ms1.w.B.next_time new_time
  match (if eligA then fireA ms1 else some ms1) with
  | none => none
  | some ms2 =>
    match (if eligB then fireB ms2 else some ms2) with
    | none => none
    | some ms3 =>
      match (if ms3.enable_unblock_safety_net then unblockSafetyNet ms3 else some ms3) with
      | none => none
      | some ms4 => some (collectItems ms4, eLe tstar end_time)

/-- The entry point of `Model.step`: compute `t*`, clamp it at `end_time`,
and run the body. -/
def stepModel (ms : MState) (end_time : Rat) : Option (MState × Bool) :=
  let tstar := modelNextTime ms.w
  let new_time : Rat := match tstar with
    | none => end_time
    | some q => min q end_time
  stepCore ms tstar new_time end_time

/-- Well-formedness invariant of a `ChannelPool`, maintained by the
constructor and by successful `add_task` / `pop_finished_task` calls:
free and occupied channels are duplicate-free and disjoint, exactly the
ids `0 .. current_id` have been allocated, lazy allocation respects
`max(max_channels, 1)` (the constructor always allocates channel 0), and
`task_to_channel` stores distinct occupied channels. -/
structure PoolWF (p : ChannelPool ν) : Prop where
  nodup_free : p.free_channels.Nodup
  nodup_occ : p.occupied_channels.Nodup
  disj : ∀ c ∈ p.free_channels, c ∉ p.occupied_channels
  card : p.free_channels.length + p.occupied_channels.length = p.current_id + 1
  bound : ∀ m, p.max_channels = some m → p.current_id + 1 ≤ max m 1
  mem_le : ∀ c, c ∈ p.free_channels ∨ c ∈ p.occupied_channels → c ≤ p.current_id
  mapv : ∀ k c, (k, c) ∈ p.task_to_channel → c ∈ p.occupied_channels
  mapv_nodup : (p.task_to_channel.map Prod.snd).Nodup

/-- Upper-bound invariant on a `deque`'s length (a Python `deque` never
exceeds its `maxlen`). -/
def PyQueue.lenOk (q : PyQueue α) : Prop :=
  ∀ n, q.maxlen = some n → q.data.length ≤ n

/-- Total blocking duration of a list of blocked tasks released at time
`ct`: tasks without a `blocked_start_time` contribute nothing (mirrors the
metric-tracking guard in `try_unblock`). -/
def blockedDurSum (ct : Rat) : List (Task NodeTag) → Rat
  | [] => 0
  | t :: rest =>
    (match t.blocked_start_time with
     | some b => ct - b
     | none => 0) + blockedDurSum ct rest

/-- Fresh item with a given id. -/
def mkItem (n : Nat) : Item NodeTag := ⟨n, 0, 0, false, []⟩

/-- Constant unit delay function. -/
def delayOne : Item NodeTag → Rat := fun _ => 1

/-- Concrete node `A` about to finish a task at `t = 5` while `B` refuses
(used to exercise the blocking branch of `end_action`). -/
def qAblock : QNode :=
  { metrics := {}
    current_time := 5
    next_time := some 5
    state := NodeState.BUSY
    queue := ⟨some 1, []⟩
    channel_pool := ⟨some 1, [⟨mkItem 0, 5, none⟩], [(5, 0)], 0, [], [0]⟩
    blocked_tasks := []
    delay_fn := delayOne
    blocking_predicate := none }

/-- Concrete saturated terminal node `B`: one busy channel out of one, a
zero-capacity queue, hence `can_accept_item() = False`. -/
def qBfull : QNode :=
  { metrics := {}
    current_time := 5
    next_time := some 100
    state := NodeState.BUSY
    queue := ⟨some 0, []⟩
    channel_pool := ⟨some 1, [⟨mkItem 1, 100, none⟩], [(100, 0)], 0, [], [0]⟩
    blocked_tasks := []
    delay_fn := delayOne
    blocking_predicate := none }

/-- Concrete blocking scenario: `A` completes while `B` is saturated. -/
def wBlock : World := ⟨qAblock, qBfull, false, 0⟩

/-- Concrete idle node with two channels and a one-slot queue (admission
scenarios). -/
def ndAdmit : QNode :=
  { metrics := {}
    current_time := 0
    next_time := none
    state := NodeState.IDLE
    queue := ⟨some 1, []⟩
    channel_pool := ⟨some 2, [], [], 0, [0], []⟩
    blocked_tasks := []
    delay_fn := delayOne
    blocking_predicate := none }

/-- Concrete node `A` holding two blocked tasks (blocked at times 2 and 3,
now `t = 10`). -/
def qAtwoBlocked : QNode :=
  { metrics := {}
    current_time := 10
    next_time := none
    state := NodeState.BLOCKED
    queue := ⟨none, []⟩
    channel_pool := ⟨some 2, [], [], 0, [0], []⟩
    blocked_tasks := [⟨mkItem 2, 2, some 2⟩, ⟨mkItem 3, 3, some 3⟩]
    delay_fn := delayOne
    blocking_predicate := none }

/-- Concrete unbounded idle node `B` (always accepts). -/
def qBopen : QNode :=
  { metrics := {}
    current_time := 10
    next_time := none
    state := NodeState.IDLE
    queue := ⟨none, []⟩
    channel_pool := ⟨none, [], [], 0, [0], []⟩
    blocked_tasks := []
    delay_fn := delayOne
    blocking_predicate := none }

/-- Concrete FIFO-unblock scenario: two blocked tasks, downstream open. -/
def wFifo : World := ⟨qAtwoBlocked, qBopen, true, 0⟩

/-- Concrete node `A` with a single blocked task (safety-net scenario). -/
def qAoneBlocked : QNode :=
  { qAtwoBlocked with blocked_tasks := [⟨mkItem 4, 0, some 0⟩] }

/-- Concrete model state for the safety net: `A` blocked on an open `B`,
so the first pass makes progress and the second pass stops the loop. -/
def msNet : MState := ⟨⟨qAoneBlocked, qBopen, true, 0⟩, 10, 0, 0, 0, [], true⟩

/-- Concrete terminal node `B` holding a blocked task (an invalid
configuration that `try_unblock` nevertheless handles). -/
def qBterminalBlocked : QNode :=
  { metrics := {}
    current_time := 3
    next_time := none
    state := NodeState.BLOCKED
    queue := ⟨some 0, []⟩
    channel_pool := ⟨some 1, [], [], 0, [], [0]⟩
    blocked_tasks := [⟨mkItem 5, 1, some 1⟩]
    delay_fn := delayOne
    blocking_predicate := none }

/-- Concrete world for the terminal-node `try_unblock` scenario. -/
def wTerminal : World := ⟨ndAdmit, qBterminalBlocked, false, 0⟩

/-- Concrete busy node `A` with its next completion at `t = 7`. -/
def qAat7 : QNode :=
  { metrics := {}
    current_time := 0
    next_time := some 7
    state := NodeState.BUSY
    queue := ⟨none, []⟩
    channel_pool := ⟨some 1, [⟨mkItem 6, 7, none⟩], [(7, 0)], 0, [], [0]⟩
    blocked_tasks := []
    delay_fn := delayOne
    blocking_predicate := none }

/-- Concrete model state whose only pending event is at `t* = 7`. -/
def msStep : MState := ⟨⟨qAat7, { qBopen with current_time := 0 }, false, 0⟩, 0, 0, 0, 0, [], true⟩

/-- Concrete priority groups: level 1 holds a refusing and an accepting
destination, level 2 a refusing one. -/
def groupsEx : List (Nat × List PDest) := [(2, [⟨0, false⟩]), (1, [⟨1, false⟩, ⟨2, true⟩])]

instance : IsTotal (Nat × List PDest) (fun a b => a.1 ≤ b.1) :=
  ⟨fun a b => Nat.le_total a.1 b.1⟩

instance : IsTrans (Nat × List PDest) (fun a b => a.1 ≤ b.1) :=
  ⟨fun _ _ _ h1 h2 => Nat.le_trans h1 h2⟩

/-- C9 (counterexample): a bounded FIFO queue with `maxlen = 0` is full,
yet pushing onto it does not leave the new item at the tail — the
`deque` discards the pushed element, so the claim fails at `n = 0`. -/
theorem queue_push_maxzero_counterexample :
    (PyQueue.mk (some 0) ([] : List Nat)).isFull = true ∧
    ((PyQueue.mk (some 0) ([] : List Nat)).push 7).2 = none ∧
    ((PyQueue.mk (some 0) ([] : List Nat)).push 7).1.data = [] ∧
    ((PyQueue.mk (some 0) ([] : List Nat)).push 7).1.data.getLast? ≠ some 7 := by
  decide

/-- C9 (amended): `Queue.push` always returns `None`, and for a bounded
FIFO queue with `maxlen = n ≥ 1` a push onto a full queue silently evicts
the oldest element: the length stays `n`, the new item is at the tail, and
the previous head is dropped. -/
theorem queue_push_evict_spec {α : Type} (q : PyQueue α) (x : α) (n : Nat)
    (hm : q.maxlen = some n) (hn : 1 ≤ n) (hf : q.data.length = n) :
    (∀ (q2 : PyQueue α) (y : α), (q2.push y).2 = none) ∧
    (q.push x).1.data = q.data.tail ++ [x] ∧
    (q.push x).1.data.length = n ∧
    (q.push x).1.data.getLast? = some x := by
  have hd : q.data ≠ [] := by
    intro h0
    rw [h0] at hf
    simp at hf
    omega
  obtain ⟨a, as, ha⟩ := List.exists_cons_of_ne_nil hd
  have hlen : (q.data ++ [x]).length = n + 1 := by
    simp [hf]
  have hdrop : (q.data ++ [x]).drop 1 = q.data.tail ++ [x] := by
    rw [ha]
    simp
  refine ⟨fun q2 y => rfl, ?_, ?_, ?_⟩
  · simp only [PyQueue.push, hm, hlen]
    rw [if_pos (by omega)]
    simpa using hdrop
  · simp only [PyQueue.push, hm, hlen]
    rw [if_pos (by omega)]
    have : n + 1 - n = 1 := by omega
    rw [this, hdrop]
    rw [ha] at hf ⊢
    simp at hf ⊢
    omega
  · simp only [PyQueue.push, hm, hlen]
    rw [if_pos (by omega)]
    have : n + 1 - n = 1 := by omega
    rw [this, hdrop]
    simp

/-- C9 (witness): a full two-slot queue `[1, 2]` satisfies the amended
claim's hypotheses, and pushing `5` evicts the head, yielding `[2, 5]`. -/
theorem queue_push_evict_witness :
    (PyQueue.mk (some 2) [1, 2] : PyQueue Nat).maxlen = some 2 ∧
    (1 : Nat) ≤ 2 ∧
    (PyQueue.mk (some 2) [1, 2] : PyQueue Nat).data.length = 2 ∧
    ((PyQueue.mk (some 2) [1, 2] : PyQueue Nat).push 5).1.data = [2, 5] := by
  refine ⟨rfl, by decide, rfl, ?_⟩
  have h := queue_push_evict_spec (PyQueue.mk (some 2) [1, 2] : PyQueue Nat) 5 2 rfl
    (by decide) rfl
  simpa using h.2.1

/-- Two entries of an association list with duplicate-free values and
equal values are the same entry. -/
theorem snd_nodup_inj {l : List (Rat × Nat)} (hn : (l.map Prod.snd).Nodup)
    {e1 e2 : Rat × Nat} (h1 : e1 ∈ l) (h2 : e2 ∈ l) (he : e1.2 = e2.2) : e1 = e2 := by
  induction l with
  | nil => cases h1
  | cons a as ih =>
    simp only [List.map_cons, List.nodup_cons, List.mem_map] at hn
    obtain ⟨hna, hnas⟩ := hn
    rcases List.mem_cons.mp h1 with h1a | h1t <;> rcases List.mem_cons.mp h2 with h2a | h2t
    · rw [h1a, h2a]
    · exact absurd ⟨e2, h2t, (h1a ▸ he).symm⟩ hna
    · exact absurd ⟨e1, h1t, (h2a ▸ he.symm).symm⟩ hna
    · exact ih hnas h1t h2t

/-- Field-level description of a successful `_occupy_channel`, including
preservation of the pool well-formedness invariant. -/
theorem occupyChannel_spec {ν : Type} {p : ChannelPool ν} {ch : Nat} {p1 : ChannelPool ν}
    (h : p.occupyChannel = some (ch, p1)) :
    ch ∈ p.free_channels ∧
    p1.tasks = p.tasks ∧
    p1.task_to_channel = p.task_to_channel ∧
    p1.max_channels = p.max_channels ∧
    p1.occupied_channels = ch :: p.occupied_channels ∧
    (PoolWF p → PoolWF p1) := by
  rcases hf : p.free_channels with _ | ⟨c0, rest⟩
  · simp [ChannelPool.occupyChannel, hf] at h
  · simp only [ChannelPool.occupyChannel, hf] at h
    by_cases hg : (rest.isEmpty && (match p.max_channels with
        | none => true
        | some m => decide (p.current_id + 1 < m))) = true
    · rw [if_pos hg] at h
      obtain ⟨hc, hp⟩ := Prod.mk.injEq .. ▸ Option.some.inj h
      subst hc
      subst hp
      rw [Bool.and_eq_true] at hg
      obtain ⟨hrest, hcg⟩ := hg
      have hrest2 : rest = [] := by
        cases rest
        · rfl
        · simp at hrest
      subst hrest2
      refine ⟨by simp [hf], rfl, rfl, rfl, rfl, ?_⟩
      intro hwf
      have hchle : c0 ≤ p.current_id := hwf.mem_le c0 (Or.inl (by simp [hf]))
      have hocc : c0 ∉ p.occupied_channels := hwf.disj c0 (by simp [hf])
      have hcard := hwf.card
      rw [hf] at hcard
      simp at hcard
      refine ⟨?_, ?_, ?_, ?_, ?_, ?_, ?_, ?_⟩
      · show ([p.current_id + 1] : List Nat).Nodup
        exact List.nodup_singleton _
      · show (c0 :: p.occupied_channels).Nodup
        exact List.nodup_cons.mpr ⟨hocc, hwf.nodup_occ⟩
      · show ∀ c ∈ ([p.current_id + 1] : List Nat), c ∉ c0 :: p.occupied_channels
        intro c hc
        simp only [List.mem_singleton] at hc
        subst hc
        intro hmem
        rcases List.mem_cons.mp hmem with hmem | hmem
        · omega
        · have := hwf.mem_le _ (Or.inr hmem)
          omega
      · show ([p.current_id + 1] : List Nat).length + (c0 :: p.occupied_channels).length
          = (p.current_id + 1) + 1
        simp
        omega
      · show ∀ m, p.max_channels = some m → (p.current_id + 1) + 1 ≤ max m 1
        intro m hm
        have h2 : p.current_id + 1 < m := by
          rw [hm] at hcg
          exact of_decide_eq_true hcg
        omega
      · show ∀ c, c ∈ ([p.current_id + 1] : List Nat) ∨ c ∈ c0 :: p.occupied_channels →
          c ≤ p.current_id + 1
        intro c hc
        rcases hc with hc | hc
        · simp only [List.mem_singleton] at hc
          omega
        · rcases List.mem_cons.mp hc with hc | hc
          · omega
          · have := hwf.mem_le _ (Or.inr hc)
            omega
      · show ∀ k c, (k, c) ∈ p.task_to_channel → c ∈ c0 :: p.occupied_channels
        intro k c hkc
        exact List.mem_cons_of_mem _ (hwf.mapv k c hkc)
      · show (p.task_to_channel.map Prod.snd).Nodup
        exact hwf.mapv_nodup
    · rw [if_neg hg] at h
      obtain ⟨hc, hp⟩ := Prod.mk.injEq .. ▸ Option.some.inj h
      subst hc
      subst hp
      refine ⟨by simp [hf], rfl, rfl, rfl, rfl, ?_⟩
      intro hwf
      have hnodf := hwf.nodup_free
      rw [hf] at hnodf
      obtain ⟨hchrest, hrestnd⟩ := List.nodup_cons.mp hnodf
      have hocc : c0 ∉ p.occupied_channels := hwf.disj c0 (by simp [hf])
      have hcard := hwf.card
      rw [hf] at hcard
      simp at hcard
      refine ⟨?_, ?_, ?_, ?_, ?_, ?_, ?_, ?_⟩
      · show rest.Nodup
        exact hrestnd
      · show (c0 :: p.occupied_channels).Nodup
        exact List.nodup_cons.mpr ⟨hocc, hwf.nodup_occ⟩
      · show ∀ c ∈ rest, c ∉ c0 :: p.occupied_channels
        intro c hc hmem
        rcases List.mem_cons.mp hmem with hmem | hmem
        · exact hchrest (hmem ▸ hc)
        · exact hwf.disj c (by simp [hf]; exact Or.inr hc) hmem
      · show rest.length + (c0 :: p.occupied_channels).length = p.current_id + 1
        simp
        omega
      · show ∀ m, p.max_channels = some m → p.current_id + 1 ≤ max m 1
        exact hwf.bound
      · show ∀ c, c ∈ rest ∨ c ∈ c0 :: p.occupied_channels → c ≤ p.current_id
        intro c hc
        rcases hc with hc | hc
        · exact hwf.mem_le c (Or.inl (by simp [hf]; exact Or.inr hc))
        · rcases List.mem_cons.mp hc with hc | hc
          · exact hc ▸ hwf.mem_le c0 (Or.inl (by simp [hf]))
          · exact hwf.mem_le c (Or.inr hc)
      · show ∀ k c, (k, c) ∈ p.task_to_channel → c ∈ c0 :: p.occupied_channels
        intro k c hkc
        exact List.mem_cons_of_mem _ (hwf.mapv k c hkc)
      · show (p.task_to_channel.map Prod.snd).Nodup
        exact hwf.mapv_nodup

/-- `add_task` preserves the pool well-formedness invariant and the
`max_channels` field. -/
theorem poolWF_addTask {ν : Type} {p p' : ChannelPool ν} {t : Task ν}
    (hwf : PoolWF p) (h : p.addTask t = some p') :
    PoolWF p' ∧ p'.max_channels = p.max_channels := by
  match hocc : p.occupyChannel with
  | none => simp [ChannelPool.addTask, hocc] at h
  | some (ch, p1) =>
    obtain ⟨hchf, htasks, hmap, hmax, hoccs, hwf1⟩ := occupyChannel_spec hocc
    match hpush : heapPush p1.max_channels p1.tasks t with
    | none => simp [ChannelPool.addTask, hocc, hpush] at h
    | some tasks2 =>
      simp only [ChannelPool.addTask, hocc, hpush] at h
      have hwf1p := hwf1 hwf
      have hp := Option.some.inj h
      rw [← hp]
      refine ⟨⟨hwf1p.nodup_free, hwf1p.nodup_occ, hwf1p.disj, hwf1p.card, hwf1p.bound,
        hwf1p.mem_le, ?_, ?_⟩, hmax⟩
      · intro k c hkc
        simp only [assocInsert, List.mem_cons] at hkc
        rcases hkc with hkc | hkc
        · rw [Prod.mk.injEq] at hkc
          rw [hoccs, ← hkc.2]
          exact List.mem_cons_self ..
        · exact hwf1p.mapv k c (List.mem_of_mem_filter hkc)
      · simp only [assocInsert, List.map_cons, List.nodup_cons]
        constructor
        · intro hmem
          obtain ⟨e, he, hev⟩ := List.mem_map.mp hmem
          have hemem : e ∈ p.task_to_channel := hmap ▸ List.mem_of_mem_filter he
          have : ch ∈ p.occupied_channels := hev ▸ hwf.mapv e.1 e.2 (by
            have : (e.1, e.2) = e := rfl
            rw [this]
            exact hemem)
          exact hwf.disj ch hchf this
        · exact ((List.filter_sublist _).map Prod.snd).nodup (hmap ▸ hwf1p.mapv_nodup)

/-- `pop_finished_task` preserves the pool well-formedness invariant and
the `max_channels` field. -/
theorem poolWF_pop {ν : Type} {p p' : ChannelPool ν} {t : Task ν}
    (hwf : PoolWF p) (h : p.popFinishedTask = some (t, p')) :
    PoolWF p' ∧ p'.max_channels = p.max_channels := by
  match hpop : popMinTask p.tasks with
  | none => simp [ChannelPool.popFinishedTask, hpop] at h
  | some (t0, rest) =>
    match hap : assocPop p.task_to_channel t0.next_time with
    | none => simp [ChannelPool.popFinishedTask, hpop, hap] at h
    | some (ch, m2) =>
      simp only [ChannelPool.popFinishedTask, hpop, hap] at h
      by_cases hchocc : ch ∈ p.occupied_channels
      · rw [if_pos hchocc] at h
        obtain ⟨ht, hp⟩ := Prod.mk.injEq .. ▸ Option.some.inj h
        have hchfree : ch ∉ p.free_channels := fun hc => hwf.disj ch hc hchocc
        obtain ⟨e, hefind⟩ : ∃ e, p.task_to_channel.find?
            (fun x => decide (x.1 = t0.next_time)) = some e := by
          unfold assocPop at hap
          match hfe : p.task_to_channel.find? (fun x => decide (x.1 = t0.next_time)) with
          | some e => exact ⟨e, hfe⟩
          | none => rw [hfe] at hap; cases hap
        have hemem : e ∈ p.task_to_channel := List.mem_of_find?_eq_some hefind
        have hech : e.2 = ch ∧ m2 = p.task_to_channel.filter
            (fun x => !(decide (x.1 = t0.next_time))) := by
          unfold assocPop at hap
          rw [hefind] at hap
          exact ⟨(Prod.mk.injEq .. ▸ Option.some.inj hap).1,
            ((Prod.mk.injEq .. ▸ Option.some.inj hap).2).symm⟩
        rw [← hp]
        refine ⟨⟨List.nodup_cons.mpr ⟨hchfree, hwf.nodup_free⟩, hwf.nodup_occ.erase ch, ?_,
          ?_, hwf.bound, ?_, ?_, ?_⟩, rfl⟩
        · intro c hc
          rcases List.mem_cons.mp hc with hc | hc
          · subst hc
            intro hmem
            exact (List.Nodup.mem_erase_iff hwf.nodup_occ).mp hmem |>.1 rfl
          · intro hmem
            exact hwf.disj c hc (List.mem_of_mem_erase hmem)
        · have := List.length_erase_of_mem hchocc
          rw [this]
          have hlen : 1 ≤ p.occupied_channels.length := List.length_pos.mpr
            (List.ne_nil_of_mem hchocc)
          have := hwf.card
          simp
          omega
        · intro c hc
          rcases hc with hc | hc
          · rcases List.mem_cons.mp hc with hc | hc
            · exact hc ▸ hwf.mem_le ch (Or.inr hchocc)
            · exact hwf.mem_le c (Or.inl hc)
          · exact hwf.mem_le c (Or.inr (List.mem_of_mem_erase hc))
        · intro k c hkc
          have hkcm : (k, c) ∈ p.task_to_channel := by
            rw [hech.2] at hkc
            exact List.mem_of_mem_filter hkc
          have hcocc : c ∈ p.occupied_channels := hwf.mapv k c hkcm
          rw [List.Nodup.mem_erase_iff hwf.nodup_occ]
          refine ⟨?_, hcocc⟩
          intro hceq
          have hkne : k ≠ t0.next_time := by
            have := List.of_mem_filter (hech.2 ▸ hkc)
            simpa using this
          have : (k, c) = e := snd_nodup_inj hwf.mapv_nodup hkcm hemem (by
            rw [hech.1, hceq])
          have hke : k = e.1 := by rw [← this]
          have hefst : e.1 = t0.next_time := by
            have := List.find?_some hefind
            simpa using this
          exact hkne (hke ▸ hefst)
        · rw [hech.2]
          exact ((List.filter_sublist _).map Prod.snd).nodup hwf.mapv_nodup
      · rw [if_neg hchocc] at h
        cases h

/-- `add_task` keeps `max_channels`. -/
theorem addTask_max {ν : Type} {p p' : ChannelPool ν} {t : Task ν}
    (h : p.addTask t = some p') : p'.max_channels = p.max_channels := by
  match hocc : p.occupyChannel with
  | none => simp [ChannelPool.addTask, hocc] at h
  | some (ch, p1) =>
    obtain ⟨_, _, _, hmax, _, _⟩ := occupyChannel_spec hocc
    match hpush : heapPush p1.max_channels p1.tasks t with
    | none => simp [ChannelPool.addTask, hocc, hpush] at h
    | some tasks2 =>
      simp only [ChannelPool.addTask, hocc, hpush] at h
      have hp := Option.some.inj h
      rw [← hp]
      exact hmax

/-- `pop_finished_task` keeps `max_channels`. -/
theorem pop_max {ν : Type} {p p' : ChannelPool ν} {t : Task ν}
    (h : p.popFinishedTask = some (t, p')) : p'.max_channels = p.max_channels := by
  match hpop : popMinTask p.tasks with
  | none => simp [ChannelPool.popFinishedTask, hpop] at h
  | some (t0, rest) =>
    match hap : assocPop p.task_to_channel t0.next_time with
    | none => simp [ChannelPool.popFinishedTask, hpop, hap] at h
    | some (ch, m2) =>
      simp only [ChannelPool.popFinishedTask, hpop, hap] at h
      by_cases hch : ch ∈ p.occupied_channels
      · rw [if_pos hch] at h
        obtain ⟨_, hp⟩ := Prod.mk.injEq .. ▸ Option.some.inj h
        rw [← hp]
      · rw [if_neg hch] at h
        cases h

/-- Being reachable keeps the configured `max_channels`. -/
theorem reachable_max {ν : Type} {m : Option Nat} {p : ChannelPool ν}
    (h : ChannelPool.Reachable ν m p) : p.max_channels = m := by
  induction h with
  | init => rfl
  | add hr hstep ih => rw [addTask_max hstep]; exact ih
  | pop hr hstep ih => rw [pop_max hstep]; exact ih

/-- Every reachable pool is well-formed. -/
theorem poolWF_reachable {ν : Type} {m : Option Nat} {p : ChannelPool ν}
    (h : ChannelPool.Reachable ν m p) : PoolWF p := by
  induction h with
  | init =>
    refine ⟨?_, ?_, ?_, ?_, ?_, ?_, ?_, ?_⟩
    · show ([0] : List Nat).Nodup
      exact List.nodup_singleton _
    · show ([] : List Nat).Nodup
      exact List.nodup_nil
    · show ∀ c ∈ ([0] : List Nat), c ∉ ([] : List Nat)
      intro c hc
      exact List.not_mem_nil c
    · show ([0] : List Nat).length + ([] : List Nat).length = 0 + 1
      rfl
    · show ∀ m2, m = some m2 → 0 + 1 ≤ max m2 1
      intro m2 hm2
      omega
    · show ∀ c, c ∈ ([0] : List Nat) ∨ c ∈ ([] : List Nat) → c ≤ 0
      intro c hc
      rcases hc with hc | hc
      · simp only [List.mem_singleton] at hc
        omega
      · cases hc
    · show ∀ k c, (k, c) ∈ ([] : List (Rat × Nat)) → c ∈ ([] : List Nat)
      intro k c hkc
      cases hkc
    · show (([] : List (Rat × Nat)).map Prod.snd).Nodup
      exact List.nodup_nil
  | add hr hstep ih => exact (poolWF_addTask ih hstep).1
  | pop hr hstep ih => exact (poolWF_pop ih hstep).1

/-- C8 (counterexample): with `max_channels = 0` the constructor still
allocates channel 0, so `|free| + |occupied| = 1` already exceeds
`max_channels` at construction. -/
theorem channelPool_maxzero_counterexample :
    (ChannelPool.init Unit (some 0)).free_channels.length +
      (ChannelPool.init Unit (some 0)).occupied_channels.length = 1 ∧
    ¬ ((ChannelPool.init Unit (some 0)).free_channels.length +
       (ChannelPool.init Unit (some 0)).occupied_channels.length ≤ 0) := by
  decide

/-- C8 (amended): for a pool constructed with finite `max_channels = m`,
after every successful sequence of `add_task` / `pop_finished_task` calls,
`|free| + |occupied|` equals the number of ever-allocated channels
(`current_id + 1`, ids `0 .. current_id` each created once) and is at most
`max(m, 1)` — the constructor always allocates one channel, so for
`m = 0` the total is 1 rather than 0. -/
theorem channelPool_alloc_invariant_spec {ν : Type} (m : Nat) (p : ChannelPool ν)
    (h : ChannelPool.Reachable ν (some m) p) :
    p.free_channels.length + p.occupied_channels.length = p.current_id + 1 ∧
    p.current_id + 1 ≤ max m 1 := by
  have hwf := poolWF_reachable h
  exact ⟨hwf.card, hwf.bound m (reachable_max h)⟩

/-- C8 (witness): the freshly constructed three-channel pool is reachable
and satisfies the amended invariant. -/
theorem channelPool_alloc_invariant_witness :
    (ChannelPool.init Unit (some 3)).free_channels.length +
      (ChannelPool.init Unit (some 3)).occupied_channels.length =
      (ChannelPool.init Unit (some 3)).current_id + 1 ∧
    (ChannelPool.init Unit (some 3)).current_id + 1 ≤ max 3 1 :=
  channelPool_alloc_invariant_spec 3 _ ChannelPool.Reachable.init

/-- On a key-sorted group list, `firstAvailable` returns the accepting
subset of a group all of whose strictly-lower-key groups refuse. -/
theorem firstAvailable_some {l : List (Nat × List PDest)}
    (hs : l.Sorted (fun a b => a.1 ≤ b.1)) {avail : List PDest}
    (h : firstAvailable l = some avail) :
    ∃ g, g ∈ l ∧ avail = g.2.filter (fun d => d.canAccept) ∧ avail ≠ [] ∧
      ∀ g2 ∈ l, g2.1 < g.1 → ∀ d ∈ g2.2, d.canAccept = false := by
  induction l with
  | nil => cases h
  | cons a as ih =>
    rw [firstAvailable] at h
    by_cases ha : (a.2.filter (fun d => d.canAccept)).isEmpty = true
    · rw [if_pos ha] at h
      obtain ⟨hhead, htail⟩ := List.sorted_cons.mp hs
      obtain ⟨g, hg, he, hne, hmin⟩ := ih htail h
      refine ⟨g, List.mem_cons_of_mem _ hg, he, hne, ?_⟩
      intro g2 hg2 hlt d hd
      rcases List.mem_cons.mp hg2 with hg2 | hg2
      · subst hg2
        have hnil := List.isEmpty_iff.mp ha
        have := List.filter_eq_nil_iff.mp hnil d hd
        simpa using this
      · exact hmin g2 hg2 hlt d hd
    · rw [if_neg ha] at h
      obtain ⟨hhead, htail⟩ := List.sorted_cons.mp hs
      refine ⟨a, List.mem_cons_self _ _, (Option.some.inj h).symm, ?_, ?_⟩
      · intro hnil
        rw [← Option.some.inj h] at hnil
        exact ha (List.isEmpty_iff.mpr hnil)
      · intro g2 hg2 hlt d hd
        rcases List.mem_cons.mp hg2 with hg2 | hg2
        · subst hg2
          omega
        · have := hhead g2 hg2
          omega

/-- If `firstAvailable` fails, every destination in every group refuses. -/
theorem firstAvailable_none {l : List (Nat × List PDest)}
    (h : firstAvailable l = none) :
    ∀ g ∈ l, ∀ d ∈ g.2, d.canAccept = false := by
  induction l with
  | nil => intro g hg; cases hg
  | cons a as ih =>
    rw [firstAvailable] at h
    by_cases ha : (a.2.filter (fun d => d.canAccept)).isEmpty = true
    · rw [if_pos ha] at h
      intro g hg d hd
      rcases List.mem_cons.mp hg with hg | hg
      · subst hg
        have hnil := List.isEmpty_iff.mp ha
        have := List.filter_eq_nil_iff.mp hnil d hd
        simpa using this
      · exact ih h g hg d hd
    · rw [if_neg ha] at h
      cases h

/-- C7: `PriorityGroupTransitionNode._get_next_node` scans priority levels
in ascending numeric order; at the first level with an accepting
destination it applies `random.choice` to exactly that accepting subset;
if every destination everywhere refuses, it applies `random.choice` to the
lowest-numbered (highest-priority) level's destination list; with no
configured groups it returns `None`.  `k` is the oracle index consumed by
`random.choice`. -/
theorem priorityGroup_select_spec (groups : List (Nat × List PDest)) (k : Nat) :
    (groups = [] → getNextNode groups k = none) ∧
    (groups ≠ [] →
      ((∃ g, g ∈ groups ∧ g.2.filter (fun d => d.canAccept) ≠ [] ∧
          (∀ g2 ∈ groups, g2.1 < g.1 → ∀ d ∈ g2.2, d.canAccept = false) ∧
          getNextNode groups k = randChoice (g.2.filter (fun d => d.canAccept)) k) ∨
       ((∀ g2 ∈ groups, ∀ d ∈ g2.2, d.canAccept = false) ∧
        ∃ g, g ∈ groups ∧ (∀ g2 ∈ groups, g.1 ≤ g2.1) ∧
          getNextNode groups k = randChoice g.2 k))) := by
  constructor
  · intro hempty
    subst hempty
    rfl
  · intro hne
    have hperm := List.perm_insertionSort (fun a b : Nat × List PDest => a.1 ≤ b.1) groups
    have hsort := List.sorted_insertionSort (fun a b : Nat × List PDest => a.1 ≤ b.1) groups
    have hgne : groups.isEmpty = false := by
      cases groups
      · exact absurd rfl hne
      · rfl
    match hfa : firstAvailable (sortGroups groups) with
    | some avail =>
      left
      obtain ⟨g, hg, he, hnea, hmin⟩ := firstAvailable_some hsort hfa
      refine ⟨g, hperm.mem_iff.mp hg, he ▸ hnea, ?_, ?_⟩
      · intro g2 hg2 hlt d hd
        exact hmin g2 (hperm.mem_iff.mpr hg2) hlt d hd
      · simp only [getNextNode, hgne, Bool.false_eq_true, if_false, sortGroups]
        rw [show groups.insertionSort (fun a b => a.1 ≤ b.1) = sortGroups groups from rfl, hfa]
        rw [he]
    | none =>
      right
      have hall := firstAvailable_none hfa
      constructor
      · intro g2 hg2 d hd
        exact hall g2 (hperm.mem_iff.mpr hg2) d hd
      · match hsg : sortGroups groups with
        | [] =>
          have : groups = [] := by
            have := hperm.length_eq
            rw [show groups.insertionSort (fun a b => a.1 ≤ b.1) = sortGroups groups from rfl,
              hsg] at this
            exact List.eq_nil_of_length_eq_zero this.symm
          exact absurd this hne
        | ghead :: grest =>
          refine ⟨ghead, ?_, ?_, ?_⟩
          · exact hperm.mem_iff.mp (by rw [show groups.insertionSort (fun a b => a.1 ≤ b.1)
              = sortGroups groups from rfl, hsg]; exact List.mem_cons_self _ _)
          · intro g2 hg2
            have hg2s : g2 ∈ sortGroups groups := hperm.mem_iff.mpr hg2
            rw [hsg] at hg2s
            rcases List.mem_cons.mp hg2s with hg2s | hg2s
            · subst hg2s
              exact Nat.le_refl _
            · have hs2 := hsort
              rw [show groups.insertionSort (fun a b => a.1 ≤ b.1) = sortGroups groups from rfl,
                hsg] at hs2
              exact (List.sorted_cons.mp hs2).1 g2 hg2s
          · simp only [getNextNode, hgne, Bool.false_eq_true, if_false]
            rw [hfa, hsg]

/-- C7 (witness): with a refusing level-2 group and a level-1 group
containing one accepting destination, the router picks from level 1's
accepting subset. -/
theorem priorityGroup_select_witness :
    groupsEx ≠ [] ∧
    getNextNode groupsEx 0 = some ⟨2, true⟩ ∧
    ((∃ g, g ∈ groupsEx ∧ g.2.filter (fun d => d.canAccept) ≠ [] ∧
        (∀ g2 ∈ groupsEx, g2.1 < g.1 → ∀ d ∈ g2.2, d.canAccept = false) ∧
        getNextNode groupsEx 0 = randChoice (g.2.filter (fun d => d.canAccept)) 0) ∨
     ((∀ g2 ∈ groupsEx, ∀ d ∈ g2.2, d.canAccept = false) ∧
      ∃ g, g ∈ groupsEx ∧ (∀ g2 ∈ groupsEx, g.1 ≤ g2.1) ∧
        getNextNode groupsEx 0 = randChoice g.2 0)) :=
  ⟨by decide, by decide, (priorityGroup_select_spec groupsEx 0).2 (by decide)⟩

/-- `_item_in_hook` only touches the arrival metrics. -/
theorem itemInHook_frame (nd : QNode) :
    nd.itemInHook.metrics.num_failures = nd.metrics.num_failures ∧
    nd.itemInHook.metrics.num_in = nd.metrics.num_in + 1 ∧
    nd.itemInHook.metrics.blocked_time = nd.metrics.blocked_time ∧
    nd.itemInHook.current_time = nd.current_time ∧
    nd.itemInHook.channel_pool = nd.channel_pool ∧
    nd.itemInHook.queue = nd.queue ∧
    nd.itemInHook.blocked_tasks = nd.blocked_tasks ∧
    nd.itemInHook.state = nd.state ∧
    nd.itemInHook.next_time = nd.next_time ∧
    nd.itemInHook.delay_fn = nd.delay_fn := by
  refine ⟨?_, ?_, ?_, rfl, rfl, rfl, rfl, rfl, rfl, rfl⟩ <;>
    · simp only [QNode.itemInHook]
      split <;> rfl

/-- `_item_out_hook` only touches the departure metrics. -/
theorem itemOutHook_frame (nd : QNode) :
    nd.itemOutHook.metrics.num_failures = nd.metrics.num_failures ∧
    nd.itemOutHook.metrics.num_out = nd.metrics.num_out + 1 ∧
    nd.itemOutHook.metrics.num_in = nd.metrics.num_in ∧
    nd.itemOutHook.metrics.blocked_time = nd.metrics.blocked_time ∧
    nd.itemOutHook.current_time = nd.current_time ∧
    nd.itemOutHook.channel_pool = nd.channel_pool ∧
    nd.itemOutHook.queue = nd.queue ∧
    nd.itemOutHook.blocked_tasks = nd.blocked_tasks ∧
    nd.itemOutHook.state = nd.state ∧
    nd.itemOutHook.next_time = nd.next_time ∧
    nd.itemOutHook.delay_fn = nd.delay_fn := by
  refine ⟨?_, ?_, ?_, ?_, rfl, rfl, rfl, rfl, rfl, rfl, rfl⟩ <;>
    · simp only [QNode.itemOutHook]
      split <;> rfl

/-- A push on a not-full, length-respecting deque appends without
eviction. -/
theorem push_not_full {α : Type} (q : PyQueue α) (x : α) (hq : q.lenOk)
    (hnf : q.isFull = false) :
    (q.push x).1.data = q.data ++ [x] ∧ (q.push x).1.maxlen = q.maxlen := by
  unfold PyQueue.push
  cases hm : q.maxlen with
  | none => simp
  | some n =>
    have hlen := hq n hm
    have hne : q.data.length ≠ n := by
      unfold PyQueue.isFull at hnf
      rw [hm] at hnf
      simpa using hnf
    constructor
    · simp only
      rw [if_neg (by simp; omega)]
    · rfl

/-- Frame facts about `QueueingNode.add_task`. -/
theorem addTask_frame {nd nd2 : QNode} {t : Task NodeTag}
    (h : QNode.addTask nd t = some nd2) :
    nd2.queue = nd.queue ∧ nd2.metrics = nd.metrics ∧
    nd2.blocked_tasks = nd.blocked_tasks ∧
    nd2.current_time = nd.current_time ∧ nd2.delay_fn = nd.delay_fn ∧
    nd2.blocking_predicate = nd.blocking_predicate ∧
    (nd.state = NodeState.BLOCKED → nd2.state = NodeState.BLOCKED) ∧
    ∃ pool2, nd.channel_pool.addTask t = some pool2 ∧ nd2.channel_pool = pool2 ∧
      nd2.next_time = nextFinishTime pool2.tasks := by
  unfold QNode.addTask at h
  match hp : nd.channel_pool.addTask t with
  | none => rw [hp] at h; cases h
  | some pool2 =>
    rw [hp] at h
    have h2 := Option.some.inj h
    by_cases hs : ({ nd with
        channel_pool := pool2
        next_time := nextFinishTime pool2.tasks } : QNode).state = NodeState.BLOCKED
    · rw [if_pos hs] at h2
      rw [← h2]
      exact ⟨rfl, rfl, rfl, rfl, rfl, rfl, fun _ => hs, pool2, rfl, rfl, rfl⟩
    · rw [if_neg hs] at h2
      rw [← h2]
      exact ⟨rfl, rfl, rfl, rfl, rfl, rfl, fun hb => absurd hb hs, pool2, rfl, rfl, rfl⟩

/-- Frame facts about the end-of-`end_action` queue refill. -/
theorem refill_frame {nd nd2 : QNode} (h : QNode.refill nd = some nd2) :
    nd2.blocked_tasks = nd.blocked_tasks ∧ nd2.metrics = nd.metrics ∧
    nd2.current_time = nd.current_time ∧
    (nd.state = NodeState.BLOCKED → nd2.state = NodeState.BLOCKED) ∧
    nd2.delay_fn = nd.delay_fn ∧
    nd2.blocking_predicate = nd.blocking_predicate := by
  simp only [QNode.refill] at h
  split at h
  · match hd : nd.queue.data with
    | [] =>
      rw [hd] at h
      have h2 := Option.some.inj h
      rw [← h2]
      exact ⟨rfl, rfl, rfl, fun hb => hb, rfl, rfl⟩
    | x :: xs =>
      rw [hd] at h
      obtain ⟨hq, hmet, hbl, hct, hdf, hbp, hst, _⟩ := addTask_frame h
      exact ⟨hbl, hmet, hct, hst, hdf, hbp⟩
  · have h2 := Option.some.inj h
    rw [← h2]
    exact ⟨rfl, rfl, rfl, fun hb => hb, rfl, rfl⟩

/-- Content facts about a successful pool-level `add_task` when a free
channel exists and the heap is not at capacity. -/
theorem pool_addTask_content {ν : Type} {p : ChannelPool ν} (t : Task ν)
    (hfree : p.free_channels ≠ [])
    (hnotfull : ∀ m, p.max_channels = some m → p.tasks.length < m) :
    ∃ p2, p.addTask t = some p2 ∧
      p2.occupied_channels.length = p.occupied_channels.length + 1 ∧
      p2.tasks = p.tasks ++ [t] := by
  have hoccy : ∃ ch p1, p.occupyChannel = some (ch, p1) := by
    match hres : p.occupyChannel with
    | some (ch, p1) => exact ⟨ch, p1, rfl⟩
    | none =>
      obtain ⟨c0, rest, hfr⟩ := List.exists_cons_of_ne_nil hfree
      simp only [ChannelPool.occupyChannel, hfr] at hres
      split at hres <;> cases hres
  obtain ⟨ch, p1, hocc⟩ := hoccy
  obtain ⟨hchf, htasks, hmap, hmax, hoccs, _⟩ := occupyChannel_spec hocc
  have hfull : (match p1.max_channels with
      | some n => decide (p1.tasks.length = n)
      | none => false) = false := by
    cases hmc : p.max_channels with
    | none => rw [hmax, hmc]
    | some n =>
      rw [hmax, hmc]
      have := hnotfull n hmc
      rw [htasks]
      simp
      omega
  have hpush : heapPush p1.max_channels p1.tasks t = some (p1.tasks ++ [t]) := by
    unfold heapPush
    rw [hfull]
    simp
  refine ⟨⟨p1.max_channels, p1.tasks ++ [t], assocInsert p1.task_to_channel t.next_time ch,
    p1.current_id, p1.free_channels, p1.occupied_channels⟩, ?_, ?_, ?_⟩
  · have hred : p.addTask t = match heapPush p1.max_channels p1.tasks t with
      | none => none
      | some tasks2 => some ⟨p1.max_channels, tasks2,
          assocInsert p1.task_to_channel t.next_time ch,
          p1.current_id, p1.free_channels, p1.occupied_channels⟩ := by
      unfold ChannelPool.addTask
      rw [hocc]
    rw [hred, hpush]
  · show p1.occupied_channels.length = p.occupied_channels.length + 1
    rw [hoccs]
    rfl
  · show p1.tasks ++ [t] = p.tasks ++ [t]
    rw [htasks]

/-- Definitional reduction of `QueueingNode.start_action` exposing the
admission branches. -/
theorem startAction_reduce (tag : NodeTag) (nd : QNode) (item : Item NodeTag) :
    QNode.startAction tag nd item =
      (if (match nd.channel_pool.max_channels with
            | some m2 => decide (m2 ≤ nd.channel_pool.occupied_channels.length
                + nd.blocked_tasks.length)
            | none => false) then
         (if nd.queue.isFull then
            some { nd.itemInHook with metrics :=
              { nd.itemInHook.metrics with
                start_action_time := nd.current_time
                num_failures := nd.itemInHook.metrics.num_failures + 1 } }
          else
            some { nd.itemInHook with
              metrics := { nd.itemInHook.metrics with start_action_time := nd.current_time }
              queue := (nd.queue.push { item with
                history := item.history ++ [⟨tag, ActionType.IN, nd.current_time⟩] }).1 })
       else
         QNode.addTask
           { nd.itemInHook with
             metrics := { nd.itemInHook.metrics with start_action_time := nd.current_time } }
           ⟨{ item with history := item.history ++ [⟨tag, ActionType.IN, nd.current_time⟩] },
             nd.current_time + nd.delay_fn { item with
               history := item.history ++ [⟨tag, ActionType.IN, nd.current_time⟩] }, none⟩) :=
  rfl

/-- C2: admission for a service node with finite `max_channels = m` and
effective occupancy `E = |occupied| + |blocked_tasks|`: if `E < m`, a new
task (wrapping the item that just received its IN record) is pushed and a
channel occupied, the queue untouched; if `E ≥ m` and the queue has room,
the item is queued with state and pool unchanged; if `E ≥ m` and the queue
is full, only `num_failures` is incremented and the item enters neither
the queue nor the pool. -/
theorem startAction_admission_spec (tag : NodeTag) (nd : QNode) (item : Item NodeTag)
    (m : Nat) (hm : nd.channel_pool.max_channels = some m)
    (htasks : nd.channel_pool.tasks.length = nd.channel_pool.occupied_channels.length)
    (hq : nd.queue.lenOk) :
    (nd.channel_pool.occupied_channels.length + nd.blocked_tasks.length < m →
      nd.channel_pool.free_channels ≠ [] →
      ∃ nd2, QNode.startAction tag nd item = some nd2 ∧
        nd2.channel_pool.occupied_channels.length
          = nd.channel_pool.occupied_channels.length + 1 ∧
        (∃ tk : Task NodeTag, nd2.channel_pool.tasks = nd.channel_pool.tasks ++ [tk] ∧
          tk.item.history = item.history ++ [⟨tag, ActionType.IN, nd.current_time⟩]) ∧
        nd2.queue.data = nd.queue.data ∧
        nd2.metrics.num_failures = nd.metrics.num_failures) ∧
    (m ≤ nd.channel_pool.occupied_channels.length + nd.blocked_tasks.length →
      nd.queue.isFull = false →
      ∃ nd2, QNode.startAction tag nd item = some nd2 ∧
        (∃ it2 : Item NodeTag, nd2.queue.data = nd.queue.data ++ [it2] ∧
          it2.history = item.history ++ [⟨tag, ActionType.IN, nd.current_time⟩]) ∧
        nd2.state = nd.state ∧
        nd2.channel_pool = nd.channel_pool ∧
        nd2.metrics.num_failures = nd.metrics.num_failures) ∧
    (m ≤ nd.channel_pool.occupied_channels.length + nd.blocked_tasks.length →
      nd.queue.isFull = true →
      ∃ nd2, QNode.startAction tag nd item = some nd2 ∧
        nd2.metrics.num_failures = nd.metrics.num_failures + 1 ∧
        nd2.queue.data = nd.queue.data ∧
        nd2.channel_pool = nd.channel_pool ∧
        nd2.state = nd.state) := by
  obtain ⟨hin1, hin2, hin3, hin4, hin5, hin6, hin7, hin8, hin9, hin10⟩ := itemInHook_frame nd
  refine ⟨?_, ?_, ?_⟩
  · intro hlt hfree
    obtain ⟨p2, hpadd, hplen, hptasks⟩ := pool_addTask_content
      (⟨{ item with history := item.history ++ [⟨tag, ActionType.IN, nd.current_time⟩] },
        nd.current_time + nd.delay_fn { item with
          history := item.history ++ [⟨tag, ActionType.IN, nd.current_time⟩] }, none⟩ : Task NodeTag)
      hfree (fun m2 hm2 => by rw [hm] at hm2; cases Option.some.inj hm2; omega)
    have hstep : QNode.startAction tag nd item = QNode.addTask
        { nd.itemInHook with
          metrics := { nd.itemInHook.metrics with start_action_time := nd.current_time } }
        (⟨{ item with history := item.history ++ [⟨tag, ActionType.IN, nd.current_time⟩] },
          nd.current_time + nd.delay_fn { item with
            history := item.history ++ [⟨tag, ActionType.IN, nd.current_time⟩] }, none⟩) := by
      rw [startAction_reduce]
      simp only [hm]
      rw [show (decide (m ≤ nd.channel_pool.occupied_channels.length
        + nd.blocked_tasks.length)) = false from decide_eq_false (by omega)]
      rfl
    match hres : QNode.startAction tag nd item with
    | none =>
      rw [hstep] at hres
      simp only [QNode.addTask] at hres
      rw [hin5, hpadd] at hres
      simp at hres
    | some nd2 =>
      rw [hstep] at hres
      obtain ⟨hfq, hfm, hfb, hfc, hfd, hfp, hfs, pool2, hpool2, hcp, hnt⟩ := addTask_frame hres
      have hpool2b : pool2 = p2 := by
        rw [show ({ nd.itemInHook with
          metrics := { nd.itemInHook.metrics with
            start_action_time := nd.current_time } } : QNode).channel_pool
          = nd.channel_pool from hin5] at hpool2
        rw [hpadd] at hpool2
        exact (Option.some.inj hpool2).symm
      subst hpool2b
      refine ⟨nd2, rfl, ?_, ?_, ?_, ?_⟩
      · rw [hcp, hplen]
      · exact ⟨⟨{ item with
            history := item.history ++ [⟨tag, ActionType.IN, nd.current_time⟩] },
          nd.current_time + nd.delay_fn { item with
            history := item.history ++ [⟨tag, ActionType.IN, nd.current_time⟩] }, none⟩,
          by rw [hcp, hptasks], rfl⟩
      · rw [hfq]
        show nd.itemInHook.queue.data = nd.queue.data
        rw [hin6]
      · rw [hfm]
        show nd.itemInHook.metrics.num_failures = nd.metrics.num_failures
        exact hin1
  · intro hge hnf
    have hstep : QNode.startAction tag nd item = some
        { nd.itemInHook with
          metrics := { nd.itemInHook.metrics with start_action_time := nd.current_time }
          queue := (nd.queue.push { item with
            history := item.history ++ [⟨tag, ActionType.IN, nd.current_time⟩] }).1 } := by
      rw [startAction_reduce]
      simp only [hm]
      rw [show (decide (m ≤ nd.channel_pool.occupied_channels.length
        + nd.blocked_tasks.length)) = true from decide_eq_true (by omega)]
      rw [if_pos rfl, if_neg (by rw [hnf]; exact Bool.false_ne_true)]
    obtain ⟨hpd, hpm⟩ := push_not_full nd.queue
      { item with history := item.history ++ [⟨tag, ActionType.IN, nd.current_time⟩] } hq hnf
    refine ⟨_, hstep, ⟨{ item with
        history := item.history ++ [⟨tag, ActionType.IN, nd.current_time⟩] }, ?_, rfl⟩,
      ?_, ?_, ?_⟩
    · exact hpd
    · exact hin8
    · exact hin5
    · exact hin1
  · intro hge hfull
    have hstep : QNode.startAction tag nd item = some
        { nd.itemInHook with metrics :=
          { nd.itemInHook.metrics with
            start_action_time := nd.current_time
            num_failures := nd.itemInHook.metrics.num_failures + 1 } } := by
      rw [startAction_reduce]
      simp only [hm]
      rw [show (decide (m ≤ nd.channel_pool.occupied_channels.length
        + nd.blocked_tasks.length)) = true from decide_eq_true (by omega)]
      rw [if_pos rfl, if_pos hfull]
    refine ⟨_, hstep, ?_, ?_, ?_, ?_⟩
    · show nd.itemInHook.metrics.num_failures + 1 = nd.metrics.num_failures + 1
      rw [hin1]
    · show nd.itemInHook.queue.data = nd.queue.data
      rw [hin6]
    · exact hin5
    · exact hin8

/-- C2 (witness): the idle two-channel node admits an item straight into a
channel. -/
theorem startAction_admission_witness :
    ndAdmit.channel_pool.max_channels = some 2 ∧
    ndAdmit.channel_pool.tasks.length = ndAdmit.channel_pool.occupied_channels.length ∧
    ndAdmit.queue.lenOk ∧
    ndAdmit.channel_pool.occupied_channels.length + ndAdmit.blocked_tasks.length < 2 ∧
    ndAdmit.channel_pool.free_channels ≠ [] ∧
    ∃ nd2, QNode.startAction NodeTag.nodeB ndAdmit (mkItem 9) = some nd2 ∧
      nd2.channel_pool.occupied_channels.length = 1 := by
  have hlenOk : ndAdmit.queue.lenOk := by
    intro n hn
    simp [ndAdmit] at hn
    simp [ndAdmit]
  obtain ⟨nd2, hsa, hocc, _, _, _⟩ :=
    (startAction_admission_spec NodeTag.nodeB ndAdmit (mkItem 9) 2 rfl rfl hlenOk).1
      (by decide) (by decide)
  exact ⟨rfl, rfl, hlenOk, by decide, by decide, nd2, hsa, by rw [hocc]; rfl⟩

/-- Frame facts about `QueueingNode.start_action` needed by the
world-level lemmas. -/
theorem startAction_frame {tag : NodeTag} {nd nd2 : QNode} {item : Item NodeTag}
    (h : QNode.startAction tag nd item = some nd2) :
    nd2.blocked_tasks = nd.blocked_tasks ∧ nd2.current_time = nd.current_time ∧
    nd2.metrics.num_in = nd.metrics.num_in + 1 := by
  obtain ⟨hin1, hin2, hin3, hin4, hin5, hin6, hin7, hin8, hin9, hin10⟩ := itemInHook_frame nd
  rw [startAction_reduce] at h
  split at h
  · split at h
    · have h2 := Option.some.inj h
      rw [← h2]
      exact ⟨hin7, hin4, hin2⟩
    · have h2 := Option.some.inj h
      rw [← h2]
      exact ⟨hin7, hin4, hin2⟩
  · obtain ⟨hfq, hfm, hfb, hfc, hfd, hfp, hfs, pool2, hpool2, hcp, hnt⟩ := addTask_frame h
    refine ⟨?_, ?_, ?_⟩
    · rw [hfb]
      exact hin7
    · rw [hfc]
      exact hin4
    · rw [hfm]
      exact hin2

/-- Frame facts about a delivery from `A` into `B`. -/
theorem deliverFromA_frame {w w1 : World} {item : Item NodeTag}
    (h : deliverFromA w item = some w1) :
    w1.A.blocked_tasks = w.A.blocked_tasks ∧
    w1.A.current_time = w.A.current_time ∧
    w1.B.current_time = w.B.current_time ∧
    w1.B.blocked_tasks = w.B.blocked_tasks ∧
    w1.warnings = w.warnings ∧
    w1.A.metrics.num_out = w.A.metrics.num_out + 1 ∧
    w1.A.metrics.blocked_time = w.A.metrics.blocked_time ∧
    w1.B.metrics.num_in = w.B.metrics.num_in + 1 ∧
    w1.A.queue = w.A.queue ∧
    w1.A.channel_pool = w.A.channel_pool ∧
    w1.A.state = w.A.state ∧
    w1.A.delay_fn = w.A.delay_fn ∧
    w1.predsB = w.predsB := by
  obtain ⟨ho1, ho2, ho3, ho4, ho5, ho6, ho7, ho8, ho9, ho10, ho11⟩ := itemOutHook_frame w.A
  simp only [deliverFromA] at h
  match hB : QNode.startAction NodeTag.nodeB w.B
      { item with history := item.history
        ++ [⟨NodeTag.nodeA, ActionType.OUT, w.A.current_time⟩] } with
  | none => rw [hB] at h; cases h
  | some B1 =>
    rw [hB] at h
    have h2 := Option.some.inj h
    obtain ⟨hb1, hb2, hb3⟩ := startAction_frame hB
    rw [← h2]
    exact ⟨ho8, ho5, hb2, hb1, rfl, ho2, ho4, hb3, ho7, ho6, ho9, ho11, rfl⟩

/-- Frame facts about the blocking-duration metric update. -/
theorem chargeBlockedTime_spec (A1 : QNode) (t : Task NodeTag) :
    (chargeBlockedTime A1 t).blocked_tasks = A1.blocked_tasks ∧
    (chargeBlockedTime A1 t).current_time = A1.current_time ∧
    (chargeBlockedTime A1 t).metrics.blocked_time = A1.metrics.blocked_time +
      (match t.blocked_start_time with
       | some b => A1.current_time - b
       | none => 0) ∧
    (chargeBlockedTime A1 t).metrics.num_out = A1.metrics.num_out ∧
    (chargeBlockedTime A1 t).queue = A1.queue ∧
    (chargeBlockedTime A1 t).channel_pool = A1.channel_pool ∧
    (chargeBlockedTime A1 t).state = A1.state ∧
    (chargeBlockedTime A1 t).delay_fn = A1.delay_fn ∧
    (chargeBlockedTime A1 t).blocking_predicate = A1.blocking_predicate := by
  unfold chargeBlockedTime
  match t.blocked_start_time with
  | some bst => exact ⟨rfl, rfl, rfl, rfl, rfl, rfl, rfl, rfl, rfl⟩
  | none => exact ⟨rfl, rfl, by simp, rfl, rfl, rfl, rfl, rfl, rfl⟩

/-- Frame facts about the inner `try_unblock` refill. -/
theorem unblockRefill_frame {w1 w2 : World} (h : unblockRefill w1 = some w2) :
    w2.A.blocked_tasks = w1.A.blocked_tasks ∧
    w2.A.current_time = w1.A.current_time ∧
    w2.A.metrics = w1.A.metrics ∧
    w2.B = w1.B ∧
    w2.warnings = w1.warnings ∧
    w2.predsB = w1.predsB := by
  unfold unblockRefill at h
  match hd : w1.A.queue.data with
  | [] =>
    simp only [hd] at h
    have h2 := Option.some.inj h
    rw [← h2]
    exact ⟨rfl, rfl, rfl, rfl, rfl, rfl⟩
  | x :: xs =>
    simp only [hd] at h
    match hA : QNode.addTask { w1.A with queue := ⟨w1.A.queue.maxlen, xs⟩ }
        ⟨x, w1.A.current_time + w1.A.delay_fn x, none⟩ with
    | none => rw [hA] at h; cases h
    | some A3 =>
      rw [hA] at h
      have h2 := Option.some.inj h
      obtain ⟨hfq, hfm, hfb, hfc, hfd, hfp, hfs, _⟩ := addTask_frame hA
      rw [← h2]
      exact ⟨hfb, hfc, hfm, rfl, rfl, rfl⟩

/-- Frame facts about the post-delivery state bookkeeping. -/
theorem unblockStateUpdate_frame (w2 : World) :
    (unblockStateUpdate w2).A.blocked_tasks = w2.A.blocked_tasks ∧
    (unblockStateUpdate w2).A.current_time = w2.A.current_time ∧
    (unblockStateUpdate w2).A.metrics = w2.A.metrics ∧
    (unblockStateUpdate w2).B = w2.B ∧
    (unblockStateUpdate w2).warnings = w2.warnings := by
  simp only [unblockStateUpdate]
  split
  · split
    · exact ⟨rfl, rfl, rfl, rfl, rfl⟩
    · split
      · exact ⟨rfl, rfl, rfl, rfl, rfl⟩
      · exact ⟨rfl, rfl, rfl, rfl, rfl⟩
  · exact ⟨rfl, rfl, rfl, rfl, rfl⟩

/-- Content facts about one iteration of the `try_unblock` loop of `A`:
the head blocked task is released (FIFO), its duration is charged, the
item is delivered to `B`. -/
theorem unblockStepA_spec {w w1 : World} {t : Task NodeTag} {rest : List (Task NodeTag)}
    (h : unblockStepA w t rest = some w1) :
    w1.A.blocked_tasks = rest ∧
    w1.A.current_time = w.A.current_time ∧
    w1.B.current_time = w.B.current_time ∧
    w1.B.blocked_tasks = w.B.blocked_tasks ∧
    w1.warnings = w.warnings ∧
    w1.A.metrics.blocked_time = w.A.metrics.blocked_time +
      (match t.blocked_start_time with
       | some b => w.A.current_time - b
       | none => 0) ∧
    w1.A.metrics.num_out = w.A.metrics.num_out + 1 ∧
    w1.B.metrics.num_in = w.B.metrics.num_in + 1 := by
  obtain ⟨hc1, hc2, hc3, hc4, hc5, hc6, hc7, hc8, hc9⟩ :=
    chargeBlockedTime_spec { w.A with blocked_tasks := rest } t
  unfold unblockStepA at h
  match hD : deliverFromA
      { w with A := chargeBlockedTime { w.A with blocked_tasks := rest } t } t.item with
  | none => rw [hD] at h; cases h
  | some wd =>
    rw [hD] at h
    obtain ⟨hd1, hd2, hd3, hd4, hd5, hd6, hd7, hd8, hd9, hd10, hd11, hd12, hd13⟩ :=
      deliverFromA_frame hD
    have h3 : (match unblockRefill wd with
      | none => none
      | some w2 => some (unblockStateUpdate w2)) = some w1 := h
    match hR : unblockRefill wd with
    | none => rw [hR] at h3; cases h3
    | some w2 =>
      rw [hR] at h3
      obtain ⟨hr1, hr2, hr3, hr4, hr5, hr6⟩ := unblockRefill_frame hR
      have h2 := Option.some.inj h3
      obtain ⟨hs1, hs2, hs3, hs4, hs5⟩ := unblockStateUpdate_frame w2
      rw [← h2]
      refine ⟨?_, ?_, ?_, ?_, ?_, ?_, ?_, ?_⟩
      · rw [hs1, hr1, hd1, hc1]
      · rw [hs2, hr2, hd2, hc2]
      · rw [hs4, hr4]
        exact hd3
      · rw [hs4, hr4]
        exact hd4
      · rw [hs5, hr5, hd5]
      · rw [hs3, hr3, hd7, hc3]
      · rw [hs3, hr3, hd6, hc4]
      · rw [hs4, hr4]
        exact hd8

/-- Content facts about the `try_unblock` while loop of `A`: some prefix
of the blocked tasks is released in FIFO order, its durations are charged
to `blocked_time`, and one delivery to `B` happens per released task; if
fuel remains and the loop guard holds, at least one task is released. -/
theorem tryUnblockGoA_spec : ∀ (fuel : Nat) (w w1 : World),
    tryUnblockGoA fuel w = some w1 →
    ∃ k, k ≤ w.A.blocked_tasks.length ∧
      w1.A.blocked_tasks = w.A.blocked_tasks.drop k ∧
      w1.A.current_time = w.A.current_time ∧
      w1.B.current_time = w.B.current_time ∧
      w1.B.blocked_tasks = w.B.blocked_tasks ∧
      w1.warnings = w.warnings ∧
      w1.A.metrics.blocked_time = w.A.metrics.blocked_time
        + blockedDurSum w.A.current_time (w.A.blocked_tasks.take k) ∧
      w1.A.metrics.num_out = w.A.metrics.num_out + k ∧
      w1.B.metrics.num_in = w.B.metrics.num_in + k ∧
      (1 ≤ fuel → w.A.blocked_tasks ≠ [] → w.B.canAcceptItem = true → 1 ≤ k) := by
  intro fuel
  induction fuel with
  | zero =>
    intro w w1 h
    have h2 := Option.some.inj h
    rw [← h2]
    refine ⟨0, Nat.zero_le _, rfl, rfl, rfl, rfl, rfl, ?_, rfl, rfl, ?_⟩
    · simp [blockedDurSum]
    · intro hf
      omega
  | succ fuel ih =>
    intro w w1 h
    rw [tryUnblockGoA] at h
    match hbl : w.A.blocked_tasks, hacc : w.B.canAcceptItem with
    | [], _ =>
      rw [hbl] at h
      have h3 : some w = some w1 := h
      have h2 := Option.some.inj h3
      rw [← h2]
      refine ⟨0, Nat.zero_le _, by simp [hbl], rfl, rfl, rfl, rfl,
        by simp [blockedDurSum], rfl, rfl, ?_⟩
      intro _ hne
      exact absurd rfl hne
    | t :: rest, false =>
      rw [hbl, hacc] at h
      have h3 : some w = some w1 := h
      have h2 := Option.some.inj h3
      rw [← h2]
      refine ⟨0, Nat.zero_le _, by simp [hbl], rfl, rfl, rfl, rfl,
        by simp [blockedDurSum], rfl, rfl, ?_⟩
      intro _ _ hca
      cases hca
    | t :: rest, true =>
      rw [hbl, hacc] at h
      have h3 : (match unblockStepA w t rest with
        | none => none
        | some w2 => tryUnblockGoA fuel w2) = some w1 := h
      match hS : unblockStepA w t rest with
      | none => rw [hS] at h3; cases h3
      | some w2 =>
        rw [hS] at h3
        obtain ⟨hs1, hs2, hs3, hs4, hs5, hs6, hs7, hs8⟩ := unblockStepA_spec hS
        obtain ⟨k, hk, ih1, ih2, ih3, ih4, ih5, ih6, ih7, ih8, _⟩ := ih w2 w1 h3
        rw [hs1] at hk
        refine ⟨k + 1, ?_, ?_, ?_, ?_, ?_, ?_, ?_, ?_, ?_, ?_⟩
        · simp only [List.length_cons]
          omega
        · rw [ih1, hs1]
          rfl
        · rw [ih2, hs2]
        · rw [ih3, hs3]
        · rw [ih4, hs4]
        · rw [ih5, hs5]
        · rw [ih6, hs6, hs1, hs2]
          show w.A.metrics.blocked_time + (match t.blocked_start_time with
            | some b => w.A.current_time - b
            | none => 0) + blockedDurSum w.A.current_time (List.take k rest)
            = w.A.metrics.blocked_time + ((match t.blocked_start_time with
            | some b => w.A.current_time - b
            | none => 0) + blockedDurSum w.A.current_time (List.take k rest))
          rw [add_assoc]
        · rw [ih7, hs7]
          omega
        · rw [ih8, hs8]
          omega
        · intro _ _ _
          omega

/-- `try_unblock` on `A` leaves `B.blocked_tasks`, the warning counter and
both node clocks unchanged. -/
theorem tryUnblockA_frameB {w w1 : World} (h : tryUnblockA w = some w1) :
    w1.B.blocked_tasks = w.B.blocked_tasks ∧ w1.warnings = w.warnings ∧
    w1.A.current_time = w.A.current_time ∧ w1.B.current_time = w.B.current_time := by
  unfold tryUnblockA at h
  split at h
  · have h2 := Option.some.inj h
    rw [← h2]
    exact ⟨rfl, rfl, rfl, rfl⟩
  · match hgo : tryUnblockGoA w.A.blocked_tasks.length w with
    | none => rw [hgo] at h; cases h
    | some w2 =>
      rw [hgo] at h
      have h2 := Option.some.inj h
      obtain ⟨k, _, _, hg2, hg3, hg4, hg5, _⟩ := tryUnblockGoA_spec _ _ _ hgo
      rw [← h2]
      exact ⟨hg4, hg5, hg2, hg3⟩

/-- `_notify_blocked_predecessors` on `B` leaves `B.blocked_tasks`, the
warning counter and both node clocks unchanged. -/
theorem notifyB_frame {w w1 : World} (h : notifyPredecessorsB w = some w1) :
    w1.B.blocked_tasks = w.B.blocked_tasks ∧ w1.warnings = w.warnings ∧
    w1.A.current_time = w.A.current_time ∧ w1.B.current_time = w.B.current_time := by
  unfold notifyPredecessorsB at h
  split at h
  · have h2 := Option.some.inj h
    rw [← h2]
    exact ⟨rfl, rfl, rfl, rfl⟩
  · split at h
    · exact tryUnblockA_frameB h
    · have h2 := Option.some.inj h
      rw [← h2]
      exact ⟨rfl, rfl, rfl, rfl⟩

/-- C5 (counterexample): `try_unblock` on a terminal node holding a
blocked task does not raise — it prints a warning, clears the blocked
tasks and returns normally. -/
theorem terminal_tryUnblock_counterexample :
    wTerminal.B.blocked_tasks ≠ [] ∧
    (tryUnblockB wTerminal).map (fun w => (w.B.blocked_tasks.length, w.warnings))
      = some (0, 1) := by
  decide

/-- C5 (amended): on a terminal node with blocked tasks, `try_unblock`
prints a warning (counted in `warnings`), clears `blocked_tasks`, then
notifies blocked predecessors and continues; any returned state has no
blocked tasks on the terminal node and one more warning. -/
theorem terminal_tryUnblock_spec (w : World) (h : w.B.blocked_tasks ≠ []) :
    tryUnblockB w = notifyPredecessorsB
      { w with B := { w.B with blocked_tasks := [] }, warnings := w.warnings + 1 } ∧
    ∀ w2, tryUnblockB w = some w2 →
      w2.B.blocked_tasks = [] ∧ w2.warnings = w.warnings + 1 := by
  have hne : w.B.blocked_tasks.isEmpty = false := by
    match hbt : w.B.blocked_tasks with
    | [] => exact absurd hbt h
    | a :: l => rfl
  have heq : tryUnblockB w = notifyPredecessorsB
      { w with B := { w.B with blocked_tasks := [] }, warnings := w.warnings + 1 } := by
    unfold tryUnblockB
    rw [hne]
    simp
  refine ⟨heq, ?_⟩
  intro w2 h2
  rw [heq] at h2
  obtain ⟨hn1, hn2, _, _⟩ := notifyB_frame h2
  exact ⟨hn1, hn2⟩

/-- C5 (witness): the concrete terminal world satisfies the amended
claim's hypothesis and conclusion. -/
theorem terminal_tryUnblock_witness :
    wTerminal.B.blocked_tasks ≠ [] ∧
    tryUnblockB wTerminal = notifyPredecessorsB
      { wTerminal with
        B := { wTerminal.B with blocked_tasks := [] }
        warnings := wTerminal.warnings + 1 } :=
  ⟨by decide, (terminal_tryUnblock_spec wTerminal (by decide)).1⟩

/-- C3: with nonempty `blocked_tasks` and an accepting `next_node`,
`try_unblock` releases a nonempty prefix of `blocked_tasks` strictly in
FIFO order (the earliest-blocked tasks first: exactly `take k` leave and
`drop k` remain), delivers each released item to `B` (one `num_out` /
downstream `num_in` per task), and adds `current_time −
blocked_start_time` to `blocked_time` for each released task whose
`blocked_start_time` is set, accumulating the sum of the individual
durations. -/
theorem tryUnblock_fifo_spec (w w1 : World)
    (hbl : w.A.blocked_tasks ≠ []) (hacc : w.B.canAcceptItem = true)
    (h : tryUnblockA w = some w1) :
    ∃ k, 1 ≤ k ∧ k ≤ w.A.blocked_tasks.length ∧
      w1.A.blocked_tasks = w.A.blocked_tasks.drop k ∧
      w1.A.metrics.blocked_time = w.A.metrics.blocked_time
        + blockedDurSum w.A.current_time (w.A.blocked_tasks.take k) ∧
      w1.A.metrics.num_out = w.A.metrics.num_out + k ∧
      w1.B.metrics.num_in = w.B.metrics.num_in + k := by
  unfold tryUnblockA at h
  split at h
  · rename_i hempty
    exact absurd (List.isEmpty_iff.mp hempty) hbl
  · match hgo : tryUnblockGoA w.A.blocked_tasks.length w with
    | none => rw [hgo] at h; cases h
    | some w2 =>
      rw [hgo] at h
      have h2 := Option.some.inj h
      obtain ⟨k, hk, g1, g2, g3, g4, g5, g6, g7, g8, glast⟩ := tryUnblockGoA_spec _ _ _ hgo
      have hk1 : 1 ≤ k := glast (List.length_pos.mpr hbl) hbl hacc
      rw [← h2]
      exact ⟨k, hk1, hk, g1, g6, g7, g8⟩

/-- C3 (witness): two tasks blocked at times 2 and 3, released at time 10
into an open `B`, leave in FIFO order with the summed durations charged. -/
theorem tryUnblock_fifo_witness :
    wFifo.A.blocked_tasks ≠ [] ∧ wFifo.B.canAcceptItem = true ∧
    ∃ w1, tryUnblockA wFifo = some w1 ∧
      ∃ k, 1 ≤ k ∧ k ≤ wFifo.A.blocked_tasks.length ∧
        w1.A.blocked_tasks = wFifo.A.blocked_tasks.drop k ∧
        w1.A.metrics.blocked_time = wFifo.A.metrics.blocked_time
          + blockedDurSum wFifo.A.current_time (wFifo.A.blocked_tasks.take k) ∧
        w1.A.metrics.num_out = wFifo.A.metrics.num_out + k ∧
        w1.B.metrics.num_in = wFifo.B.metrics.num_in + k := by
  have h1 : wFifo.A.blocked_tasks ≠ [] := by decide
  have h2 : wFifo.B.canAcceptItem = true := by decide
  have hsome : (tryUnblockA wFifo).isSome = true := by decide
  refine ⟨h1, h2, ?_⟩
  match hres : tryUnblockA wFifo with
  | none => rw [hres] at hsome; cases hsome
  | some w1 => exact ⟨w1, rfl, tryUnblock_fifo_spec wFifo w1 h1 h2 hres⟩

/-- Content facts about the blocking branch of `end_action`. -/
theorem blockFinishedA_spec (w1 : World) (finished : Item NodeTag) :
    (blockFinishedA w1 finished).A.blocked_tasks
      = w1.A.blocked_tasks ++ [⟨finished, w1.A.current_time, some w1.A.current_time⟩] ∧
    (blockFinishedA w1 finished).A.state = NodeState.BLOCKED ∧
    (blockFinishedA w1 finished).predsB = true ∧
    (blockFinishedA w1 finished).A.metrics.num_blocks = w1.A.metrics.num_blocks + 1 ∧
    (blockFinishedA w1 finished).A.metrics.max_blocked_tasks
      = max w1.A.metrics.max_blocked_tasks (w1.A.blocked_tasks.length + 1) ∧
    (blockFinishedA w1 finished).B = w1.B ∧
    (blockFinishedA w1 finished).warnings = w1.warnings ∧
    (blockFinishedA w1 finished).A.current_time = w1.A.current_time ∧
    (blockFinishedA w1 finished).A.metrics.num_out = w1.A.metrics.num_out := by
  refine ⟨rfl, rfl, rfl, ?_, ?_, rfl, rfl, rfl, ?_⟩ <;>
    simp only [blockFinishedA]
  · split <;> rfl
  · split
    · rename_i hlt
      simp only [List.length_append, List.length_singleton] at hlt ⊢
      omega
    · rename_i hlt
      simp only [List.length_append, List.length_singleton] at hlt ⊢
      omega
  · split <;> rfl

/-- Frame facts about the refill/`next_time` epilogue of `end_action`. -/
theorem finishEndActionA_spec {w2 w1 : World} (h : finishEndActionA w2 = some w1) :
    w1.A.blocked_tasks = w2.A.blocked_tasks ∧
    w1.A.metrics = w2.A.metrics ∧
    (w2.A.state = NodeState.BLOCKED → w1.A.state = NodeState.BLOCKED) ∧
    w1.B = w2.B ∧ w1.predsB = w2.predsB ∧ w1.warnings = w2.warnings ∧
    w1.A.current_time = w2.A.current_time := by
  unfold finishEndActionA at h
  match hr : w2.A.refill with
  | none => rw [hr] at h; cases h
  | some A3 =>
    rw [hr] at h
    obtain ⟨hf1, hf2, hf3, hf4, hf5, hf6⟩ := refill_frame hr
    have h2 := Option.some.inj h
    rw [← h2]
    exact ⟨hf1, hf2, hf4, rfl, rfl, rfl, hf3⟩

/-- C1: when `end_action` completes a task while `_should_block()` holds,
the finished item is appended (verbatim, with no OUT record) as a holder
task with `blocked_start_time = current_time` to `blocked_tasks`, the
state becomes BLOCKED, `A` is registered in `B.blocked_predecessors`,
`num_blocks` is incremented by one, `max_blocked_tasks` is updated to the
new maximum, and nothing is delivered: `B` is completely untouched (so
`B.start_action` was never invoked) and `num_out` does not change. -/
theorem endAction_blocking_spec (w w1 : World)
    (hsb : shouldBlockA w = true) (h : endActionA w = some w1) :
    ∃ tsk pool1, w.A.channel_pool.popFinishedTask = some (tsk, pool1) ∧
      w1.A.blocked_tasks = w.A.blocked_tasks ++
        [⟨tsk.item, w.A.current_time, some w.A.current_time⟩] ∧
      w1.A.state = NodeState.BLOCKED ∧
      w1.predsB = true ∧
      w1.A.metrics.num_blocks = w.A.metrics.num_blocks + 1 ∧
      w1.A.metrics.max_blocked_tasks
        = max w.A.metrics.max_blocked_tasks (w.A.blocked_tasks.length + 1) ∧
      w1.B = w.B ∧
      w1.A.metrics.num_out = w.A.metrics.num_out := by
  unfold endActionA at h
  split at h
  · match hpop : w.A.channel_pool.popFinishedTask with
    | none => rw [hpop] at h; cases h
    | some (tsk, pool1) =>
      rw [hpop] at h
      have h3 : (match (if shouldBlockA { w with A := { w.A with channel_pool := pool1 } } then
          some (blockFinishedA { w with A := { w.A with channel_pool := pool1 } } tsk.item)
        else
          endActionNormalA { w with A := { w.A with channel_pool := pool1 } } tsk.item) with
        | none => none
        | some w2 => finishEndActionA w2) = some w1 := h
      rw [show shouldBlockA { w with A := { w.A with channel_pool := pool1 } } = true
        from hsb] at h3
      rw [if_pos rfl] at h3
      have h4 : finishEndActionA
          (blockFinishedA { w with A := { w.A with channel_pool := pool1 } } tsk.item)
          = some w1 := h3
      obtain ⟨hb1, hb2, hb3, hb4, hb5, hb6, hb7, hb8, hb9⟩ :=
        blockFinishedA_spec { w with A := { w.A with channel_pool := pool1 } } tsk.item
      obtain ⟨he1, he2, he3, he4, he5, he6, he7⟩ := finishEndActionA_spec h4
      refine ⟨tsk, pool1, rfl, ?_, ?_, ?_, ?_, ?_, ?_, ?_⟩
      · rw [he1, hb1]
      · exact he3 hb2
      · rw [he5, hb3]
      · rw [he2, hb4]
      · rw [he2, hb5]
      · rw [he4, hb6]
      · rw [he2, hb9]
  · cases h

/-- C1 (witness): the concrete world where `A` finishes at `t = 5` while
`B` is saturated enters the blocking branch. -/
theorem endAction_blocking_witness :
    shouldBlockA wBlock = true ∧
    ∃ w1, endActionA wBlock = some w1 ∧
      ∃ tsk pool1, wBlock.A.channel_pool.popFinishedTask = some (tsk, pool1) ∧
        w1.A.blocked_tasks = wBlock.A.blocked_tasks ++
          [⟨tsk.item, wBlock.A.current_time, some wBlock.A.current_time⟩] ∧
        w1.A.state = NodeState.BLOCKED ∧
        w1.predsB = true ∧
        w1.A.metrics.num_blocks = wBlock.A.metrics.num_blocks + 1 ∧
        w1.B = wBlock.B := by
  have hsb : shouldBlockA wBlock = true := by decide
  have hsome : (endActionA wBlock).isSome = true := by decide
  refine ⟨hsb, ?_⟩
  match hres : endActionA wBlock with
  | none => rw [hres] at hsome; cases hsome
  | some w1 =>
    obtain ⟨tsk, pool1, hpop, hc1, hc2, hc3, hc4, _, hc6, _⟩ :=
      endAction_blocking_spec wBlock w1 hsb hres
    exact ⟨w1, rfl, tsk, pool1, hpop, hc1, hc2, hc3, hc4, hc6⟩

/-- C10: `BaseFactoryNode.start_action` always raises `RuntimeError`, but
only after mutating the factory's metrics (`num_in` incremented,
`start_action_time` set to the node clock) and appending an IN record to
the item's history; the mutations survive the exception. -/
theorem factory_startAction_spec (nd : FactoryNode) (item : Item Unit) :
    (factoryStartAction nd item).2.2.isSome = true ∧
    (factoryStartAction nd item).1.metrics.num_in = nd.metrics.num_in + 1 ∧
    (factoryStartAction nd item).1.metrics.start_action_time = nd.current_time ∧
    (factoryStartAction nd item).2.1.history =
      item.history ++ [⟨(), ActionType.IN, nd.current_time⟩] :=
  ⟨rfl, rfl, rfl, rfl⟩

/-- The exit value of `iteration` in the `_unblock_safety_net` loop never
exceeds the starting value plus the remaining fuel. -/
theorem safetyNetGo_iters_le : ∀ (fuel it : Nat) (w w2 : World) (iters : Nat),
    safetyNetGo fuel it w = some (w2, iters) → iters ≤ it + fuel := by
  intro fuel
  induction fuel with
  | zero =>
    intro it w w2 iters h
    rw [safetyNetGo] at h
    have h2 := Option.some.inj h
    rw [Prod.mk.injEq] at h2
    omega
  | succ fuel ih =>
    intro it w w2 iters h
    rw [safetyNetGo] at h
    match hp : safetyPass w with
    | none => rw [hp] at h; cases h
    | some (w1, progress) =>
      rw [hp] at h
      cases progress with
      | true =>
        have h3 : safetyNetGo fuel (it + 1) w1 = some (w2, iters) := h
        have := ih (it + 1) w1 w2 iters h3
        omega
      | false =>
        have h3 : (some (w1, it + 1) : Option (World × Nat)) = some (w2, iters) := h
        have h2 := Option.some.inj h3
        rw [Prod.mk.injEq] at h2
        omega

/-- C4 (counterexample): in the world `msNet` with one blocked task behind
an accepting node, the safety net makes progress on its first pass, exits
at `iteration = 2`, strictly below the bound `2 * numNodes = 4`, yet
`num_unblock_cycles` is incremented from 0 to 1 — contradicting the claim
that the counter is bumped only when the iteration bound is hit. -/
theorem safetyNet_cycles_counterexample :
    (unblockSafetyNetCore msNet.w).map Prod.snd = some 2 ∧
    2 < 2 * numNodes ∧
    msNet.num_unblock_cycles = 0 ∧
    (unblockSafetyNet msNet).map (fun m => m.num_unblock_cycles) = some 1 := by
  refine ⟨by decide, by decide, by decide, by decide⟩

/-- C4 (amended): every successful run of `_unblock_safety_net` exits its
loop with `iteration ≤ 2 * len(nodes)`, and increments
`metrics.num_unblock_cycles` by one exactly when more than one iteration
ran — i.e. whenever any pass made progress — not only when the iteration
bound is hit. -/
theorem safetyNet_bound_cycles_spec (ms : MState) (ms1 : MState)
    (h : unblockSafetyNet ms = some ms1) :
    ∃ w1 iters, unblockSafetyNetCore ms.w = some (w1, iters) ∧
      iters ≤ 2 * numNodes ∧
      ms1.w = w1 ∧
      ms1.num_unblock_cycles =
        ms.num_unblock_cycles + (if 1 < iters then 1 else 0) := by
  rw [unblockSafetyNet] at h
  match hc : unblockSafetyNetCore ms.w with
  | none => rw [hc] at h; cases h
  | some (w1, iters) =>
    rw [hc] at h
    have h2 := Option.some.inj h
    refine ⟨w1, iters, rfl, ?_, ?_, ?_⟩
    · exact safetyNetGo_iters_le (2 * numNodes) 0 ms.w w1 iters hc
    · rw [← h2]
    · rw [← h2]
      show (if 1 < iters then ms.num_unblock_cycles + 1 else ms.num_unblock_cycles) =
        ms.num_unblock_cycles + (if 1 < iters then 1 else 0)
      split <;> omega

/-- C4 (witness): the amended statement evaluated on the concrete state
`msNet`, whose safety net run succeeds. -/
theorem safetyNet_bound_cycles_witness :
    ∃ ms1, unblockSafetyNet msNet = some ms1 ∧
      ∃ w1 iters, unblockSafetyNetCore msNet.w = some (w1, iters) ∧
        iters ≤ 2 * numNodes ∧
        ms1.w = w1 ∧
        ms1.num_unblock_cycles =
          msNet.num_unblock_cycles + (if 1 < iters then 1 else 0) := by
  have hsome : (unblockSafetyNet msNet).isSome = true := by decide
  match hres : unblockSafetyNet msNet with
  | none => rw [hres] at hsome; cases hsome
  | some ms1 =>
    exact ⟨ms1, rfl, safetyNet_bound_cycles_spec msNet ms1 hres⟩

/-- `try_unblock` on the terminal `B` leaves both node clocks unchanged. -/
theorem tryUnblockB_clocks {w w1 : World} (h : tryUnblockB w = some w1) :
    w1.A.current_time = w.A.current_time ∧ w1.B.current_time = w.B.current_time := by
  unfold tryUnblockB at h
  split at h
  · obtain ⟨_, _, h3, h4⟩ := notifyB_frame h
    exact ⟨h3, h4⟩
  · obtain ⟨_, _, h3, h4⟩ := notifyB_frame h
    exact ⟨h3, h4⟩

/-- The normal branch of `end_action` on `A` leaves both node clocks
unchanged. -/
theorem endActionNormalA_clocks {w1 w2 : World} {f : Item NodeTag}
    (h : endActionNormalA w1 f = some w2) :
    w2.A.current_time = w1.A.current_time ∧ w2.B.current_time = w1.B.current_time := by
  have hAct : ((if w1.A.channel_pool.tasks.isEmpty && w1.A.blocked_tasks.isEmpty then
      { w1.A with state := NodeState.IDLE } else w1.A) : QNode).current_time
      = w1.A.current_time := by
    split
    · rfl
    · rfl
  have h2 : (match deliverFromA
      { w1 with A := (if w1.A.channel_pool.tasks.isEmpty && w1.A.blocked_tasks.isEmpty then
          { w1.A with state := NodeState.IDLE } else w1.A) } f with
    | none => none
    | some w1b => tryUnblockA w1b) = some w2 := h
  match hD : deliverFromA
      { w1 with A := (if w1.A.channel_pool.tasks.isEmpty && w1.A.blocked_tasks.isEmpty then
          { w1.A with state := NodeState.IDLE } else w1.A) } f with
  | none => rw [hD] at h2; cases h2
  | some w1b =>
    rw [hD] at h2
    obtain ⟨_, hd2, hd3, _⟩ := deliverFromA_frame hD
    obtain ⟨_, _, ht3, ht4⟩ := tryUnblockA_frameB h2
    constructor
    · rw [ht3, hd2]
      exact hAct
    · rw [ht4, hd3]

/-- `end_action` on `A` leaves both node clocks unchanged. -/
theorem endActionA_clocks {w w2 : World} (h : endActionA w = some w2) :
    w2.A.current_time = w.A.current_time ∧ w2.B.current_time = w.B.current_time := by
  unfold endActionA at h
  split at h
  · match hp : w.A.channel_pool.popFinishedTask with
    | none => rw [hp] at h; cases h
    | some (tsk, pool1) =>
      rw [hp] at h
      have h1 : (match (if shouldBlockA { w with A := { w.A with channel_pool := pool1 } } then
            some (blockFinishedA { w with A := { w.A with channel_pool := pool1 } } tsk.item)
          else endActionNormalA { w with A := { w.A with channel_pool := pool1 } } tsk.item) with
        | none => none
        | some wmid => finishEndActionA wmid) = some w2 := h
      by_cases hb : shouldBlockA { w with A := { w.A with channel_pool := pool1 } } = true
      · rw [hb] at h1
        have h3 : finishEndActionA
            (blockFinishedA { w with A := { w.A with channel_pool := pool1 } } tsk.item)
            = some w2 := h1
        obtain ⟨_, _, _, hfB, _, _, hfct⟩ := finishEndActionA_spec h3
        constructor
        · exact hfct
        · rw [hfB]
          rfl
      · rw [Bool.not_eq_true] at hb
        rw [hb] at h1
        have h3 : (match endActionNormalA
              { w with A := { w.A with channel_pool := pool1 } } tsk.item with
          | none => none
          | some wmid => finishEndActionA wmid) = some w2 := h1
        match hN : endActionNormalA { w with A := { w.A with channel_pool := pool1 } } tsk.item with
        | none => rw [hN] at h3; cases h3
        | some wn =>
          rw [hN] at h3
          have h4 : finishEndActionA wn = some w2 := h3
          obtain ⟨hn1, hn2⟩ := endActionNormalA_clocks hN
          obtain ⟨_, _, _, hfB, _, _, hfct⟩ := finishEndActionA_spec h4
          constructor
          · exact hfct.trans hn1
          · rw [hfB]
            exact hn2
  · cases h

/-- `end_action` on the terminal `B` leaves both node clocks unchanged. -/
theorem endActionB_clocks {w w2 : World} (h : endActionB w = some w2) :
    w2.A.current_time = w.A.current_time ∧ w2.B.current_time = w.B.current_time := by
  unfold endActionB at h
  split at h
  · match hp : w.B.channel_pool.popFinishedTask with
    | none => rw [hp] at h; cases h
    | some (tsk, pool1) =>
      rw [hp] at h
      have h3 : (match tryUnblockB (finishAtB
          { w with B := (if pool1.tasks.isEmpty && w.B.blocked_tasks.isEmpty then
              { w.B with channel_pool := pool1, state := NodeState.IDLE }
            else { w.B with channel_pool := pool1 }) } tsk.item) with
        | none => none
        | some w3 =>
          match w3.B.refill with
          | none => none
          | some B4 =>
            some { w3 with B := { B4 with next_time := nextFinishTime B4.channel_pool.tasks } })
        = some w2 := h
      match hT : tryUnblockB (finishAtB
          { w with B := (if pool1.tasks.isEmpty && w.B.blocked_tasks.isEmpty then
              { w.B with channel_pool := pool1, state := NodeState.IDLE }
            else { w.B with channel_pool := pool1 }) } tsk.item) with
      | none => rw [hT] at h3; cases h3
      | some w3 =>
        rw [hT] at h3
        obtain ⟨ht1, ht2⟩ := tryUnblockB_clocks hT
        have h4 : (match w3.B.refill with
          | none => none
          | some B4 =>
            some { w3 with B := { B4 with next_time := nextFinishTime B4.channel_pool.tasks } })
          = some w2 := h3
        match hR : w3.B.refill with
        | none => rw [hR] at h4; cases h4
        | some B4 =>
          rw [hR] at h4
          obtain ⟨_, _, hrct, _, _, _⟩ := refill_frame hR
          have h5 := Option.some.inj h4
          rw [← h5]
          constructor
          · show w3.A.current_time = w.A.current_time
            rw [ht1]
            rfl
          · show B4.current_time = w.B.current_time
            rw [hrct, ht2]
            show (if pool1.tasks.isEmpty && w.B.blocked_tasks.isEmpty then
                ({ w.B with channel_pool := pool1, state := NodeState.IDLE } : QNode)
              else { w.B with channel_pool := pool1 }).current_time = w.B.current_time
            split
            · rfl
            · rfl
  · cases h

/-- Frame facts about firing `A.end_action` from the dispatcher. -/
theorem fireA_spec {msa msb : MState} (h : fireA msa = some msb) :
    msb.current_time = msa.current_time ∧
    msb.num_events = msa.num_events + 1 ∧
    msb.passed_time = msa.passed_time ∧
    msb.items = msa.items ∧
    msb.enable_unblock_safety_net = msa.enable_unblock_safety_net ∧
    msb.w.A.current_time = msa.w.A.current_time ∧
    msb.w.B.current_time = msa.w.B.current_time := by
  unfold fireA at h
  match hE : endActionA msa.w with
  | none => rw [hE] at h; cases h
  | some w2 =>
    rw [hE] at h
    have h2 := Option.some.inj h
    obtain ⟨he1, he2⟩ := endActionA_clocks hE
    rw [← h2]
    exact ⟨rfl, rfl, rfl, rfl, rfl, he1, he2⟩

/-- Frame facts about firing `B.end_action` from the dispatcher. -/
theorem fireB_spec {msa msb : MState} (h : fireB msa = some msb) :
    msb.current_time = msa.current_time ∧
    msb.num_events = msa.num_events + 1 ∧
    msb.passed_time = msa.passed_time ∧
    msb.items = msa.items ∧
    msb.enable_unblock_safety_net = msa.enable_unblock_safety_net ∧
    msb.w.A.current_time = msa.w.A.current_time ∧
    msb.w.B.current_time = msa.w.B.current_time := by
  unfold fireB at h
  match hE : endActionB msa.w with
  | none => rw [hE] at h; cases h
  | some w3 =>
    rw [hE] at h
    have h2 := Option.some.inj h
    obtain ⟨he1, he2⟩ := endActionB_clocks hE
    rw [← h2]
    exact ⟨rfl, rfl, rfl, rfl, rfl, he1, he2⟩

/-- Frame facts about the conditional firing of `A` in the dispatcher
loop: the event count grows by one exactly when `A` was eligible. -/
theorem fireOptA_spec {c : Bool} {msa msb : MState}
    (h : (if c then fireA msa else some msa) = some msb) :
    msb.current_time = msa.current_time ∧
    msb.num_events = msa.num_events + (if c then 1 else 0) ∧
    msb.passed_time = msa.passed_time ∧
    msb.items = msa.items ∧
    msb.enable_unblock_safety_net = msa.enable_unblock_safety_net ∧
    msb.w.A.current_time = msa.w.A.current_time ∧
    msb.w.B.current_time = msa.w.B.current_time := by
  cases c with
  | false =>
    have h2 : msa = msb := Option.some.inj h
    rw [← h2]
    exact ⟨rfl, by simp, rfl, rfl, rfl, rfl, rfl⟩
  | true =>
    have h2 : fireA msa = some msb := h
    obtain ⟨e1, e2, e3, e4, e5, e6, e7⟩ := fireA_spec h2
    refine ⟨e1, ?_, e3, e4, e5, e6, e7⟩
    rw [e2]
    simp

/-- Frame facts about the conditional firing of `B` in the dispatcher
loop: the event count grows by one exactly when `B` was eligible. -/
theorem fireOptB_spec {c : Bool} {msa msb : MState}
    (h : (if c then fireB msa else some msa) = some msb) :
    msb.current_time = msa.current_time ∧
    msb.num_events = msa.num_events + (if c then 1 else 0) ∧
    msb.passed_time = msa.passed_time ∧
    msb.items = msa.items ∧
    msb.enable_unblock_safety_net = msa.enable_unblock_safety_net ∧
    msb.w.A.current_time = msa.w.A.current_time ∧
    msb.w.B.current_time = msa.w.B.current_time := by
  cases c with
  | false =>
    have h2 : msa = msb := Option.some.inj h
    rw [← h2]
    exact ⟨rfl, by simp, rfl, rfl, rfl, rfl, rfl⟩
  | true =>
    have h2 : fireB msa = some msb := h
    obtain ⟨e1, e2, e3, e4, e5, e6, e7⟩ := fireB_spec h2
    refine ⟨e1, ?_, e3, e4, e5, e6, e7⟩
    rw [e2]
    simp

/-- The tail of one safety-net pass (the `try_unblock`/notify sequence
after `A` has been handled) leaves both node clocks unchanged. -/
theorem safetyPassTail_clocks {wA w1 : World} {pA pr : Bool}
    (h : (match tryUnblockB wA with
      | none => none
      | some wB =>
        match (if wB.B.canAcceptItem then notifyPredecessorsB wB else some wB) with
        | none => none
        | some w4 => some (w4,
            pA || decide (wB.B.blocked_tasks.length < wA.B.blocked_tasks.length)))
      = some (w1, pr)) :
    w1.A.current_time = wA.A.current_time ∧ w1.B.current_time = wA.B.current_time := by
  match hB : tryUnblockB wA with
  | none => rw [hB] at h; cases h
  | some wB =>
    rw [hB] at h
    obtain ⟨hb1, hb2⟩ := tryUnblockB_clocks hB
    have h2 : (match (if wB.B.canAcceptItem then notifyPredecessorsB wB else some wB) with
      | none => none
      | some w4 => some (w4,
          pA || decide (wB.B.blocked_tasks.length < wA.B.blocked_tasks.length)))
      = some (w1, pr) := h
    by_cases hc : wB.B.canAcceptItem = true
    · rw [hc] at h2
      have h3 : (match notifyPredecessorsB wB with
        | none => none
        | some w4 => some (w4,
            pA || decide (wB.B.blocked_tasks.length < wA.B.blocked_tasks.length)))
        = some (w1, pr) := h2
      match hN : notifyPredecessorsB wB with
      | none => rw [hN] at h3; cases h3
      | some w4 =>
        rw [hN] at h3
        have h4 : (some (w4,
            pA || decide (wB.B.blocked_tasks.length < wA.B.blocked_tasks.length))
            : Option (World × Bool)) = some (w1, pr) := h3
        have h5 := Option.some.inj h4
        rw [Prod.mk.injEq] at h5
        obtain ⟨h51, _⟩ := h5
        rw [← h51]
        obtain ⟨_, _, hn3, hn4⟩ := notifyB_frame hN
        exact ⟨hn3.trans hb1, hn4.trans hb2⟩
    · rw [Bool.not_eq_true] at hc
      rw [hc] at h2
      have h4 : (some (wB,
          pA || decide (wB.B.blocked_tasks.length < wA.B.blocked_tasks.length))
          : Option (World × Bool)) = some (w1, pr) := h2
      have h5 := Option.some.inj h4
      rw [Prod.mk.injEq] at h5
      obtain ⟨h51, _⟩ := h5
      rw [← h51]
      exact ⟨hb1, hb2⟩

/-- One pass of the unblock safety net leaves both node clocks
unchanged. -/
theorem safetyPass_clocks {w w1 : World} {pr : Bool}
    (h : safetyPass w = some (w1, pr)) :
    w1.A.current_time = w.A.current_time ∧ w1.B.current_time = w.B.current_time := by
  simp only [safetyPass, notifyPredecessorsA, ite_self] at h
  match hA : tryUnblockA w with
  | none => rw [hA] at h; cases h
  | some wA =>
    rw [hA] at h
    have h2 : (match tryUnblockB wA with
      | none => none
      | some wB =>
        match (if wB.B.canAcceptItem then notifyPredecessorsB wB else some wB) with
        | none => none
        | some w4 => some (w4,
            decide (wA.A.blocked_tasks.length < w.A.blocked_tasks.length) ||
            decide (wB.B.blocked_tasks.length < wA.B.blocked_tasks.length)))
        = some (w1, pr) := h
    obtain ⟨_, _, ha3, ha4⟩ := tryUnblockA_frameB hA
    obtain ⟨ht1, ht2⟩ := safetyPassTail_clocks h2
    exact ⟨ht1.trans ha3, ht2.trans ha4⟩

/-- The safety-net loop leaves both node clocks unchanged. -/
theorem safetyNetGo_clocks : ∀ (fuel it : Nat) (w w2 : World) (iters : Nat),
    safetyNetGo fuel it w = some (w2, iters) →
    w2.A.current_time = w.A.current_time ∧ w2.B.current_time = w.B.current_time := by
  intro fuel
  induction fuel with
  | zero =>
    intro it w w2 iters h
    rw [safetyNetGo] at h
    have h2 := Option.some.inj h
    rw [Prod.mk.injEq] at h2
    rw [← h2.1]
    exact ⟨rfl, rfl⟩
  | succ fuel ih =>
    intro it w w2 iters h
    rw [safetyNetGo] at h
    match hp : safetyPass w with
    | none => rw [hp] at h; cases h
    | some (wp, progress) =>
      rw [hp] at h
      obtain ⟨hp1, hp2⟩ := safetyPass_clocks hp
      cases progress with
      | true =>
        have h3 : safetyNetGo fuel (it + 1) wp = some (w2, iters) := h
        obtain ⟨hi1, hi2⟩ := ih (it + 1) wp w2 iters h3
        exact ⟨hi1.trans hp1, hi2.trans hp2⟩
      | false =>
        have h3 : (some (wp, it + 1) : Option (World × Nat)) = some (w2, iters) := h
        have h2 := Option.some.inj h3
        rw [Prod.mk.injEq] at h2
        rw [← h2.1]
        exact ⟨hp1, hp2⟩

/-- `_unblock_safety_net` leaves the model clock, the event counter,
`passed_time`, the item inventory and both node clocks unchanged. -/
theorem unblockSafetyNet_frame {ms ms1 : MState} (h : unblockSafetyNet ms = some ms1) :
    ms1.current_time = ms.current_time ∧
    ms1.num_events = ms.num_events ∧
    ms1.passed_time = ms.passed_time ∧
    ms1.items = ms.items ∧
    ms1.w.A.current_time = ms.w.A.current_time ∧
    ms1.w.B.current_time = ms.w.B.current_time := by
  rw [unblockSafetyNet] at h
  match hc : unblockSafetyNetCore ms.w with
  | none => rw [hc] at h; cases h
  | some (w1, iters) =>
    rw [hc] at h
    have h2 := Option.some.inj h
    obtain ⟨hg1, hg2⟩ := safetyNetGo_clocks (2 * numNodes) 0 ms.w w1 iters hc
    rw [← h2]
    exact ⟨rfl, rfl, rfl, rfl, hg1, hg2⟩

/-- The conditional safety-net call in the dispatcher leaves the model
clock, the event counter, `passed_time`, the item inventory and both node
clocks unchanged. -/
theorem safetyOpt_frame {c : Bool} {msc msd : MState}
    (h : (if c then unblockSafetyNet msc else some msc) = some msd) :
    msd.current_time = msc.current_time ∧
    msd.num_events = msc.num_events ∧
    msd.passed_time = msc.passed_time ∧
    msd.items = msc.items ∧
    msd.w.A.current_time = msc.w.A.current_time ∧
    msd.w.B.current_time = msc.w.B.current_time := by
  cases c with
  | false =>
    have h2 : msc = msd := Option.some.inj h
    rw [← h2]
    exact ⟨rfl, rfl, rfl, rfl, rfl, rfl⟩
  | true =>
    have h2 : unblockSafetyNet msc = some msd := h
    exact unblockSafetyNet_frame h2

/-- Facts about the clock-advance phase of `_goto`: the model clock and
both node clocks land on the new time, `passed_time` accumulates, and the
`next_time` fields (hence event eligibility) are untouched. -/
theorem advancePhase_facts (ms : MState) (t : Rat) :
    (advancePhase ms t).current_time = t ∧
    (advancePhase ms t).passed_time = ms.passed_time + (t - ms.current_time) ∧
    (advancePhase ms t).num_events = ms.num_events ∧
    (advancePhase ms t).items = ms.items ∧
    (advancePhase ms t).enable_unblock_safety_net = ms.enable_unblock_safety_net ∧
    (advancePhase ms t).w.A.current_time = t ∧
    (advancePhase ms t).w.B.current_time = t ∧
    (advancePhase ms t).w.A.next_time = ms.w.A.next_time ∧
    (advancePhase ms t).w.B.next_time = ms.w.B.next_time :=
  ⟨rfl, rfl, rfl, rfl, rfl, rfl, rfl, rfl, rfl⟩

/-- The body of `_goto` run at new clock value `nt`: it returns
`nxt_time <= end_time`, lands every clock on `nt`, and fires (counts) one
`end_action` per node whose `next_time` is within `TIME_EPS` of `nt`. -/
theorem stepCore_spec {ms : MState} {tstar : ETime} {nt end_time : Rat}
    {ms1 : MState} {r : Bool}
    (h : stepCore ms tstar nt end_time = some (ms1, r)) :
    r = eLe tstar end_time ∧
    ms1.current_time = nt ∧
    ms1.w.A.current_time = nt ∧
    ms1.w.B.current_time = nt ∧
    ms1.num_events = ms.num_events
      + (if withinEps ms.w.A.next_time nt then 1 else 0)
      + (if withinEps ms.w.B.next_time nt then 1 else 0) := by
  obtain ⟨a1, a2, a3, a4, a5, a6, a7, a8, a9⟩ := advancePhase_facts ms nt
  have h0 : (match (if withinEps (advancePhase ms nt).w.A.next_time nt then
        fireA (advancePhase ms nt) else some (advancePhase ms nt)) with
    | none => none
    | some ms2 =>
      match (if withinEps (advancePhase ms nt).w.B.next_time nt then
          fireB ms2 else some ms2) with
      | none => none
      | some ms3 =>
        match (if ms3.enable_unblock_safety_net then unblockSafetyNet ms3 else some ms3) with
        | none => none
        | some ms4 => some (collectItems ms4, eLe tstar end_time)) = some (ms1, r) := h
  match hF : (if withinEps (advancePhase ms nt).w.A.next_time nt then
      fireA (advancePhase ms nt) else some (advancePhase ms nt)) with
  | none => rw [hF] at h0; cases h0
  | some ms2 =>
    rw [hF] at h0
    have h1 : (match (if withinEps (advancePhase ms nt).w.B.next_time nt then
        fireB ms2 else some ms2) with
      | none => none
      | some ms3 =>
        match (if ms3.enable_unblock_safety_net then unblockSafetyNet ms3 else some ms3) with
        | none => none
        | some ms4 => some (collectItems ms4, eLe tstar end_time)) = some (ms1, r) := h0
    match hG : (if withinEps (advancePhase ms nt).w.B.next_time nt then
        fireB ms2 else some ms2) with
    | none => rw [hG] at h1; cases h1
    | some ms3 =>
      rw [hG] at h1
      have h2 : (match (if ms3.enable_unblock_safety_net then
          unblockSafetyNet ms3 else some ms3) with
        | none => none
        | some ms4 => some (collectItems ms4, eLe tstar end_time)) = some (ms1, r) := h1
      match hS : (if ms3.enable_unblock_safety_net then unblockSafetyNet ms3 else some ms3) with
      | none => rw [hS] at h2; cases h2
      | some ms4 =>
        rw [hS] at h2
        have h3 : (some (collectItems ms4, eLe tstar end_time)
            : Option (MState × Bool)) = some (ms1, r) := h2
        have h4 := Option.some.inj h3
        rw [Prod.mk.injEq] at h4
        obtain ⟨hms1, hr⟩ := h4
        obtain ⟨fA1, fA2, fA3, fA4, fA5, fA6, fA7⟩ := fireOptA_spec hF
        obtain ⟨fB1, fB2, fB3, fB4, fB5, fB6, fB7⟩ := fireOptB_spec hG
        obtain ⟨s1, s2, s3, s4, s5, s6⟩ := safetyOpt_frame hS
        refine ⟨hr.symm, ?_, ?_, ?_, ?_⟩
        · rw [← hms1]
          show ms4.current_time = nt
          rw [s1, fB1, fA1]
          exact a1
        · rw [← hms1]
          show ms4.w.A.current_time = nt
          rw [s5, fB6, fA6]
          exact a6
        · rw [← hms1]
          show ms4.w.B.current_time = nt
          rw [s6, fB7, fA7]
          exact a7
        · rw [← hms1]
          show ms4.num_events = ms.num_events
            + (if withinEps ms.w.A.next_time nt then 1 else 0)
            + (if withinEps ms.w.B.next_time nt then 1 else 0)
          rw [s2, fB2, fA2, a3, a8, a9]

/-- C6: `Model.step(end_time)` computes `t*` as the minimum of the nodes'
`next_time` values (`modelNextTime`) and advances the model clock and
every node clock to `min(t*, end_time)`; if `t* > end_time` (in
particular when no event is pending) the clock lands on `end_time` and
the step returns `false`; otherwise the clock is set to `t*`, one
`end_action` fires (counted in `num_events`) for every node whose
`next_time` is within `TIME_EPS` of `t*`, and the step returns `true`. -/
theorem stepModel_spec (ms : MState) (end_time : Rat) (ms1 : MState) (r : Bool)
    (h : stepModel ms end_time = some (ms1, r)) :
    r = eLe (modelNextTime ms.w) end_time ∧
    ms1.w.A.current_time = ms1.current_time ∧
    ms1.w.B.current_time = ms1.current_time ∧
    (eLe (modelNextTime ms.w) end_time = false →
      ms1.current_time = end_time ∧ r = false) ∧
    (∀ q : Rat, modelNextTime ms.w = some q → q ≤ end_time →
      ms1.current_time = q ∧ r = true ∧
      ms1.num_events = ms.num_events
        + (if withinEps ms.w.A.next_time q then 1 else 0)
        + (if withinEps ms.w.B.next_time q then 1 else 0)) := by
  have h0 : stepCore ms (modelNextTime ms.w)
      (match modelNextTime ms.w with | none => end_time | some q => min q end_time)
      end_time = some (ms1, r) := h
  obtain ⟨c1, c2, c3, c4, c5⟩ := stepCore_spec h0
  refine ⟨c1, ?_, ?_, ?_, ?_⟩
  · rw [c3, c2]
  · rw [c4, c2]
  · intro hf
    constructor
    · rw [c2]
      match hm : modelNextTime ms.w with
      | none => rfl
      | some q =>
        rw [hm] at hf
        have hq : ¬ q ≤ end_time := by simpa [eLe] using hf
        show min q end_time = end_time
        exact min_eq_right (le_of_not_le hq)
    · rw [c1]
      exact hf
  · intro q hq hqle
    have hntq : (match modelNextTime ms.w with
        | none => end_time | some q' => min q' end_time) = q := by
      rw [hq]
      show min q end_time = q
      exact min_eq_left hqle
    refine ⟨by rw [c2, hntq], ?_, ?_⟩
    · rw [c1, hq]
      simp [eLe, hqle]
    · rw [c5, hntq]

/-- C6 (witness): stepping the concrete one-event state `msStep` with
`end_time = 10`: the pending event at `t* = 7` is within the horizon, so
the clock lands on 7, node `A` (and only `A`) fires, and the step reports
`true`. -/
theorem stepModel_spec_witness :
    ∃ p : MState × Bool, stepModel msStep 10 = some p ∧
      p.2 = eLe (modelNextTime msStep.w) 10 ∧
      p.1.w.A.current_time = p.1.current_time ∧
      p.1.w.B.current_time = p.1.current_time ∧
      p.1.current_time = 7 ∧ p.2 = true ∧
      p.1.num_events = msStep.num_events
        + (if withinEps msStep.w.A.next_time 7 then 1 else 0)
        + (if withinEps msStep.w.B.next_time 7 then 1 else 0) := by
  have hsome : (stepModel msStep 10).isSome = true := by
    norm_num +decide [stepModel, stepCore, msStep, advancePhase, fireA, fireB, endActionA,
      endActionB, collectItems, unblockSafetyNet, unblockSafetyNetCore, safetyNetGo, safetyPass,
      modelNextTime, eMin, withinEps, eLe, TIME_EPS, QNode.updateTime, QNode.bumpLoad,
      validateA, validateB, QNode.validateCore, shouldBlockA, mkBPInput, QNode.canAcceptItem,
      QNode.meanChannelsLoad, ChannelPool.popFinishedTask, popMinTask, assocPop,
      blockFinishedA, endActionNormalA, deliverFromA, QNode.itemOutHook, QNode.itemInHook,
      QNode.startAction, QNode.addTask, ChannelPool.addTask, ChannelPool.occupyChannel,
      heapPush, nextFinishTime, assocInsert, finishEndActionA, QNode.refill,
      PyQueue.isFull, PyQueue.isEmpty, PyQueue.push, PyQueue.popFront,
      tryUnblockA, tryUnblockGoA, unblockStepA, chargeBlockedTime, unblockRefill,
      unblockStateUpdate, notifyPredecessorsA, notifyPredecessorsB, tryUnblockB, finishAtB,
      currentItemIds, insertId, qAat7, qBopen, mkItem, delayOne, numNodes]
  match hres : stepModel msStep 10 with
  | none => rw [hres] at hsome; cases hsome
  | some p =>
    obtain ⟨c1, c2, c3, c4, c5⟩ := stepModel_spec msStep 10 p.1 p.2 hres
    obtain ⟨d1, d2, d3⟩ := c5 7 (by decide) (by decide)
    exact ⟨p, rfl, c1, c2, c3, d1, d2, d3⟩

end QNet
